import Mathlib

/-!
Verification of the tournament core of CAMPEONATO-APFQ-2025.

The two functions with non-trivial logic live in `src/utils/tournamentUtils.ts`:
`generateRoundRobinMatches` (round-robin fixture generation) and
`calculateStandings` (standings table computation).  The match-result update
handler `handleUpdateMatch` lives in `src/App.tsx`.  This file gives a shallow
embedding of those functions and proves/refutes the frozen claims about them.

Modelling conventions:
* TypeScript `number | null` scores become `Option Int`.
* `Date.now()` is modelled as an explicit `now : Nat` parameter.
* The final `matches.sort(() => Math.random() - 0.5)` shuffle (a sort driven by
  a random comparator) is modelled as a sort whose comparison outcomes are
  supplied by an explicit stream of coins, so the result is a permutation of
  the input determined by the randomness stream.
* The JavaScript `Map` is modelled as an association list with JS `Map`
  semantics (insertion order preserved; overwriting keeps the original
  position); `Array.prototype.sort` (a stable sort, the comparator used by
  `calculateStandings` is a consistent total preorder) is modelled by the
  stable `List.insertionSort`.
-/

namespace Apfq

/-! ### Data model, from `src/types.ts` -/

/-- Team record (`interface Team` in `types.ts`). -/
structure Team where
  id : String
  name : String
  playerIds : List String
deriving DecidableEq

/-- Match status (`enum MatchStatus`). -/
inductive MatchStatus where
  | Pending
  | Finished
deriving DecidableEq

/-- One set of a match (`interface MatchSet`); `null` scores are `none`. -/
structure MatchSet where
  team1 : Option Int
  team2 : Option Int
deriving DecidableEq

/-- A match (`interface Match`). -/
structure Match where
  id : String
  categoryId : String
  team1 : Team
  team2 : Team
  sets : List MatchSet
  winner : Option Team
  status : MatchStatus
  date : String
deriving DecidableEq

/-- A standings row (`interface Standings`). -/
structure Standings where
  team : Team
  played : Nat
  wins : Nat
  losses : Nat
  points : Int
  pointsFor : Int
  pointsAgainst : Int
  pointsDifference : Int
deriving DecidableEq

/-- A category (`interface Category`). -/
structure Category where
  id : String
  name : String
  teamIds : List String
deriving DecidableEq

/-! ### Decimal strings

JavaScript template literals stringify the integers `Date.now()`, `i`, `j`
in decimal.  `decStr` is that decimal representation, written with structural
(fuel) recursion so that concrete identifiers evaluate by `decide`. -/

/-- Builds the decimal digit list of `n` (most significant first); the first
argument is fuel, which `decStr` instantiates with `n` itself. -/
def decStrAux : Nat → Nat → List Char
  | 0, _ => []
  | fuel + 1, n =>
    if n < 10 then [Nat.digitChar n]
    else decStrAux fuel (n / 10) ++ [Nat.digitChar (n % 10)]

/-- Decimal string of a natural number, as produced by a JS template literal. -/
def decStr (n : Nat) : String := ⟨decStrAux (n + 1) n⟩

/-- Identifier of a generated match: models
`match-${Date.now()}-${a}-${b}-${leg}`. -/
def matchId (now a b leg : Nat) : String :=
  "match-" ++ decStr now ++ "-" ++ decStr a ++ "-" ++ decStr b ++ "-" ++ decStr leg

/-! ### generateRoundRobinMatches (`tournamentUtils.ts`, lines 3-50) -/

/-- Default team used to totalise list indexing (`teams[i]`); the generator
only indexes in bounds, so it is never produced. -/
def defaultTeam : Team := ⟨"", "", []⟩

/-- The three empty sets each fixture is initialised with. -/
def initialSets : List MatchSet := [⟨none, none⟩, ⟨none, none⟩, ⟨none, none⟩]

/-- First leg (ida) fixture for index pair `(i, j)`: `match1` in the source. -/
def firstLeg (teams : List Team) (cat : Category) (now i j : Nat) : Match :=
  { id := matchId now i j 1
    categoryId := cat.id
    team1 := teams.getD i defaultTeam
    team2 := teams.getD j defaultTeam
    sets := initialSets
    winner := none
    status := MatchStatus.Pending
    date := "" }

/-- Second leg (vuelta) fixture for index pair `(i, j)`: `match2` in the
source; teams and the id indices are swapped. -/
def secondLeg (teams : List Team) (cat : Category) (now i j : Nat) : Match :=
  { id := matchId now j i 2
    categoryId := cat.id
    team1 := teams.getD j defaultTeam
    team2 := teams.getD i defaultTeam
    sets := initialSets
    winner := none
    status := MatchStatus.Pending
    date := "" }

/-- Pairs each element of the list with every later element, in order: the
shape of the source's nested `for (i) for (j = i + 1)` loops. -/
def pairsAux : List Nat → List (Nat × Nat)
  | [] => []
  | i :: rest => (rest.map fun j => (i, j)) ++ pairsAux rest

/-- All index pairs `(i, j)` with `i < j < n`, in loop order. -/
def indexPairs (n : Nat) : List (Nat × Nat) := pairsAux (List.range n)

/-- The match list built by the nested loops of `generateRoundRobinMatches`,
before the final shuffle. -/
def buildMatches (teams : List Team) (cat : Category) (twoLegged : Bool) (now : Nat) :
    List Match :=
  if teams.length < 2 then []
  else
    (indexPairs teams.length).flatMap fun p =>
      firstLeg teams cat now p.1 p.2 ::
        (if twoLegged then [secondLeg teams cat now p.1 p.2] else [])

/-- One comparator-driven insertion: each comparison consumes one coin of the
randomness stream (`true` models `Math.random() - 0.5 < 0`).  Returns the new
list and the unconsumed coins. -/
def coinInsert : List Bool → Match → List Match → List Match × List Bool
  | coins, a, [] => ([a], coins)
  | [], a, l => (a :: l, [])
  | c :: cs, a, b :: l =>
    if c then (a :: b :: l, cs)
    else
      let r := coinInsert cs a l
      (b :: r.1, r.2)

/-- Comparator-driven sort, threading the coin stream. -/
def coinSortAux : List Bool → List Match → List Match × List Bool
  | coins, [] => ([], coins)
  | coins, a :: l =>
    let r := coinSortAux coins l
    coinInsert r.2 a r.1

/-- Models `matches.sort(() => Math.random() - 0.5)`: a sort whose comparator
answers are random, i.e. an unspecified permutation of the input determined by
the supplied coin stream. -/
def jsRandomShuffle (coins : List Bool) (l : List Match) : List Match :=
  (coinSortAux coins l).1

/-- `generateRoundRobinMatches` (`tournamentUtils.ts` lines 3-50).  The two
environment parameters `now` (the `Date.now()` clock reading) and `coins`
(the `Math.random()` outcomes of the final shuffle) make the function's
dependence on the environment explicit. -/
def generateRoundRobinMatches (teams : List Team) (cat : Category) (twoLegged : Bool)
    (now : Nat) (coins : List Bool) : List Match :=
  jsRandomShuffle coins (buildMatches teams cat twoLegged now)

/-! ### Basic lemmas about the generator -/

theorem coinInsert_perm (coins : List Bool) (a : Match) (l : List Match) :
    (coinInsert coins a l).1.Perm (a :: l) := by
  induction l generalizing coins with
  | nil => cases coins <;> simp [coinInsert]
  | cons b t ih =>
    cases coins with
    | nil => simp [coinInsert]
    | cons c cs =>
      simp only [coinInsert]
      split
      · exact List.Perm.refl _
      · exact ((ih cs).cons b).trans (List.Perm.swap a b t)

theorem jsRandomShuffle_perm (coins : List Bool) (l : List Match) :
    (jsRandomShuffle coins l).Perm l := by
  induction l generalizing coins with
  | nil => simp [jsRandomShuffle, coinSortAux]
  | cons a t ih =>
    simp only [jsRandomShuffle, coinSortAux]
    exact (coinInsert_perm _ a _).trans ((ih coins).cons a)

theorem pairsAux_length (l : List Nat) :
    2 * (pairsAux l).length = l.length * (l.length - 1) := by
  induction l with
  | nil => simp [pairsAux]
  | cons i rest ih =>
    simp only [pairsAux, List.length_append, List.length_map, List.length_cons]
    have h : (rest.length + 1) * (rest.length + 1 - 1) =
        rest.length * (rest.length - 1) + 2 * rest.length := by
      cases rest.length with
      | zero => rfl
      | succ k =>
        simp only [Nat.add_sub_cancel]
        ring
    omega

theorem mem_pairsAux_fst_snd {l : List Nat} {p : Nat × Nat} (h : p ∈ pairsAux l) :
    p.1 ∈ l ∧ p.2 ∈ l := by
  induction l with
  | nil => simp [pairsAux] at h
  | cons i rest ih =>
    simp only [pairsAux, List.mem_append, List.mem_map] at h
    rcases h with ⟨j, hj, rfl⟩ | h
    · exact ⟨List.mem_cons_self .., List.mem_cons_of_mem _ hj⟩
    · exact ⟨List.mem_cons_of_mem _ (ih h).1, List.mem_cons_of_mem _ (ih h).2⟩

theorem mem_pairsAux_iff {l : List Nat} (hs : l.Pairwise (· < ·)) {i j : Nat} :
    (i, j) ∈ pairsAux l ↔ i ∈ l ∧ j ∈ l ∧ i < j := by
  induction l with
  | nil => simp [pairsAux]
  | cons a rest ih =>
    have ha : ∀ x ∈ rest, a < x := fun x hx => List.rel_of_pairwise_cons hs hx
    have hrest := List.Pairwise.of_cons hs
    constructor
    · intro h
      simp only [pairsAux, List.mem_append, List.mem_map] at h
      rcases h with ⟨x, hx, heq⟩ | h
      · obtain ⟨rfl, rfl⟩ := Prod.mk.injEq .. ▸ heq
        exact ⟨List.mem_cons_self .., List.mem_cons_of_mem _ hx, ha _ hx⟩
      · obtain ⟨h1, h2, h3⟩ := (ih hrest).1 h
        exact ⟨List.mem_cons_of_mem _ h1, List.mem_cons_of_mem _ h2, h3⟩
    · rintro ⟨hi, hj, hij⟩
      simp only [pairsAux, List.mem_append, List.mem_map]
      rcases List.mem_cons.1 hi with h1 | hi2
      · rcases List.mem_cons.1 hj with h2 | hj2
        · exact absurd hij (by rw [h1, h2]; exact lt_irrefl a)
        · exact Or.inl ⟨j, hj2, by rw [h1]⟩
      · rcases List.mem_cons.1 hj with h2 | hj2
        · have h3 := ha i hi2
          rw [h2] at hij
          exact absurd h3 (by omega)
        · exact Or.inr ((ih hrest).2 ⟨hi2, hj2, hij⟩)

theorem mem_indexPairs {n i j : Nat} :
    (i, j) ∈ indexPairs n ↔ i < j ∧ j < n := by
  rw [indexPairs, mem_pairsAux_iff (List.pairwise_lt_range n)]
  simp only [List.mem_range]
  omega

theorem pairsAux_nodup {l : List Nat} (hs : l.Pairwise (· < ·)) :
    (pairsAux l).Nodup := by
  induction l with
  | nil => simp [pairsAux]
  | cons a rest ih =>
    have ha : ∀ x ∈ rest, a < x := fun x hx => List.rel_of_pairwise_cons hs hx
    have hrest := List.Pairwise.of_cons hs
    simp only [pairsAux]
    refine List.Nodup.append ?_ (ih hrest) ?_
    · refine List.Nodup.map ?_ (hrest.nodup)
      intro x y hxy
      exact (Prod.mk.injEq .. ▸ hxy).2
    · intro p hp hp'
      obtain ⟨x, hx, rfl⟩ := List.mem_map.1 hp
      have := (mem_pairsAux_fst_snd hp').1
      exact absurd (ha _ this) (by omega)

theorem indexPairs_nodup (n : Nat) : (indexPairs n).Nodup :=
  pairsAux_nodup (List.pairwise_lt_range n)

theorem indexPairs_zero : indexPairs 0 = [] := rfl

theorem indexPairs_one : indexPairs 1 = [] := rfl

/-- The `teams.length < 2` early return is redundant with the loop structure:
`buildMatches` always equals the flatMap over index pairs. -/
theorem buildMatches_eq (teams : List Team) (cat : Category) (twoLegged : Bool) (now : Nat) :
    buildMatches teams cat twoLegged now =
      (indexPairs teams.length).flatMap (fun p =>
        firstLeg teams cat now p.1 p.2 ::
          (if twoLegged then [secondLeg teams cat now p.1 p.2] else [])) := by
  rw [buildMatches]
  split
  · rename_i h
    interval_cases h : teams.length
    · rw [indexPairs_zero]; rfl
    · rw [indexPairs_one]; rfl
  · rfl

/-! ### Identifier distinctness -/

theorem decStrAux_eq_digits :
    ∀ fuel n, 0 < n → n ≤ fuel →
      decStrAux fuel n = ((Nat.digits 10 n).reverse.map Nat.digitChar) := by
  intro fuel
  induction fuel with
  | zero => intro n h1 h2; omega
  | succ fuel ih =>
    intro n h1 h2
    rw [decStrAux]
    have hd := Nat.digits_def' (b := 10) (by norm_num) h1
    by_cases hn : n < 10
    · have hm : n % 10 = n := Nat.mod_eq_of_lt hn
      have hdiv : n / 10 = 0 := Nat.div_eq_of_lt hn
      rw [if_pos hn, hd, hm, hdiv]
      simp
    · rw [if_neg hn]
      have hdivpos : 0 < n / 10 := Nat.div_pos (by omega) (by norm_num)
      have hdivle : n / 10 ≤ fuel := by
        have := Nat.div_lt_self h1 (by norm_num : 1 < 10)
        omega
      rw [ih (n / 10) hdivpos hdivle, hd]
      simp

theorem digitChar_ne_dash : ∀ d, d < 10 → Nat.digitChar d ≠ '-' := by decide

theorem digitChar_inj : ∀ d, d < 10 → ∀ e, e < 10 →
    Nat.digitChar d = Nat.digitChar e → d = e := by decide

theorem decStr_data_zero : (decStr 0).data = ['0'] := by decide

theorem decStr_data_pos {n : Nat} (hn : 0 < n) :
    (decStr n).data = (Nat.digits 10 n).reverse.map Nat.digitChar :=
  decStrAux_eq_digits (n + 1) n hn (by omega)

theorem decStr_ne_dash (n : Nat) : ∀ c ∈ (decStr n).data, c ≠ '-' := by
  intro c hc
  rcases Nat.eq_zero_or_pos n with rfl | hpos
  · rw [decStr_data_zero] at hc
    simp only [List.mem_singleton] at hc
    rw [hc]; decide
  · rw [decStr_data_pos hpos] at hc
    simp only [List.mem_map, List.mem_reverse] at hc
    obtain ⟨d, hd, rfl⟩ := hc
    exact digitChar_ne_dash d (Nat.digits_lt_base (by norm_num) hd)

theorem map_digitChar_inj :
    ∀ l1 l2 : List Nat, (∀ d ∈ l1, d < 10) → (∀ d ∈ l2, d < 10) →
      l1.map Nat.digitChar = l2.map Nat.digitChar → l1 = l2 := by
  intro l1
  induction l1 with
  | nil => intro l2 _ _ h; cases l2 <;> simp_all
  | cons d t ih =>
    intro l2 h1 h2 h
    cases l2 with
    | nil => simp at h
    | cons e t2 =>
      simp only [List.map_cons, List.cons.injEq] at h
      have hd := digitChar_inj d (h1 d (List.mem_cons_self ..)) e
        (h2 e (List.mem_cons_self ..)) h.1
      have ht := ih t2 (fun x hx => h1 x (List.mem_cons_of_mem _ hx))
        (fun x hx => h2 x (List.mem_cons_of_mem _ hx)) h.2
      rw [hd, ht]

theorem decStr_data_eq_zero_char {n : Nat} (hn : 0 < n)
    (h : (Nat.digits 10 n).reverse.map Nat.digitChar = ['0']) : False := by
  have h2 : (Nat.digits 10 n).reverse = [0] := by
    apply map_digitChar_inj
    · intro d hd
      exact Nat.digits_lt_base (by norm_num) (List.mem_reverse.1 hd)
    · intro d hd; simp at hd; omega
    · rw [h]; rfl
  have h3 : Nat.digits 10 n = [0] := by
    have := congrArg List.reverse h2
    simpa using this
  have h4 := Nat.ofDigits_digits 10 n
  rw [h3] at h4
  simp [Nat.ofDigits] at h4
  omega

theorem decStr_inj {m n : Nat} (h : decStr m = decStr n) : m = n := by
  have hdata : (decStr m).data = (decStr n).data := by rw [h]
  rcases Nat.eq_zero_or_pos m with rfl | hm <;>
    rcases Nat.eq_zero_or_pos n with rfl | hn
  · rfl
  · rw [decStr_data_zero, decStr_data_pos hn] at hdata
    exact absurd hdata.symm (fun hc => decStr_data_eq_zero_char hn hc |>.elim)
  · rw [decStr_data_pos hm, decStr_data_zero] at hdata
    exact absurd hdata (fun hc => decStr_data_eq_zero_char hm hc |>.elim)
  · rw [decStr_data_pos hm, decStr_data_pos hn] at hdata
    have h2 : (Nat.digits 10 m).reverse = (Nat.digits 10 n).reverse := by
      apply map_digitChar_inj _ _ ?_ ?_ hdata
      · intro d hd
        exact Nat.digits_lt_base (by norm_num) (List.mem_reverse.1 hd)
      · intro d hd
        exact Nat.digits_lt_base (by norm_num) (List.mem_reverse.1 hd)
    have h3 : Nat.digits 10 m = Nat.digits 10 n := by
      have := congrArg List.reverse h2
      simpa using this
    have hm' := Nat.ofDigits_digits 10 m
    have hn' := Nat.ofDigits_digits 10 n
    rw [h3] at hm'
    omega

theorem sep_split :
    ∀ (a b r r' : List Char), (∀ c ∈ a, c ≠ '-') → (∀ c ∈ b, c ≠ '-') →
      a ++ '-' :: r = b ++ '-' :: r' → a = b ∧ r = r' := by
  intro a
  induction a with
  | nil =>
    intro b r r' _ hb h
    cases b with
    | nil => simpa using h
    | cons d t =>
      simp only [List.nil_append, List.cons_append, List.cons.injEq] at h
      exact absurd h.1.symm (hb d (List.mem_cons_self ..))
  | cons c t ih =>
    intro b r r' ha hb h
    cases b with
    | nil =>
      simp only [List.cons_append, List.nil_append, List.cons.injEq] at h
      exact absurd h.1 (ha c (List.mem_cons_self ..))
    | cons d t2 =>
      simp only [List.cons_append, List.cons.injEq] at h
      obtain ⟨ht, hr⟩ := ih t2 r r' (fun x hx => ha x (List.mem_cons_of_mem _ hx))
        (fun x hx => hb x (List.mem_cons_of_mem _ hx)) h.2
      exact ⟨by rw [h.1, ht], hr⟩

theorem matchId_data (now a b leg : Nat) :
    (matchId now a b leg).data =
      ['m', 'a', 't', 'c', 'h'] ++ '-' :: ((decStr now).data ++ '-' ::
        ((decStr a).data ++ '-' :: ((decStr b).data ++ '-' :: (decStr leg).data))) := by
  simp [matchId, String.data_append, List.append_assoc]

theorem matchId_inj {n1 a1 b1 l1 n2 a2 b2 l2 : Nat}
    (h : matchId n1 a1 b1 l1 = matchId n2 a2 b2 l2) :
    n1 = n2 ∧ a1 = a2 ∧ b1 = b2 ∧ l1 = l2 := by
  have hdata := congrArg String.data h
  rw [matchId_data, matchId_data] at hdata
  have h0 := List.append_inj_right hdata rfl
  have h1 := sep_split _ _ _ _ (decStr_ne_dash n1) (decStr_ne_dash n2)
    (List.cons.injEq .. ▸ h0).2
  have h2 := sep_split _ _ _ _ (decStr_ne_dash a1) (decStr_ne_dash a2) h1.2
  have h3 := sep_split _ _ _ _ (decStr_ne_dash b1) (decStr_ne_dash b2) h2.2
  refine ⟨decStr_inj (String.ext h1.1), decStr_inj (String.ext h2.1),
    decStr_inj (String.ext h3.1), decStr_inj (String.ext h3.2)⟩

/-- The list of identifiers that `buildMatches` produces, in order. -/
theorem build_ids (teams : List Team) (cat : Category) (tl : Bool) (now : Nat) :
    (buildMatches teams cat tl now).map Match.id =
      (indexPairs teams.length).flatMap fun p =>
        matchId now p.1 p.2 1 :: (if tl then [matchId now p.2 p.1 2] else []) := by
  rw [buildMatches_eq, List.map_flatMap]
  congr 1
  funext p
  cases tl <;> simp [firstLeg, secondLeg]

theorem build_ids_nodup (teams : List Team) (cat : Category) (tl : Bool) (now : Nat) :
    ((buildMatches teams cat tl now).map Match.id).Nodup := by
  rw [build_ids]
  rw [List.nodup_flatMap]
  constructor
  · intro p hp
    cases tl
    · simp
    · show (matchId now p.1 p.2 1 :: [matchId now p.2 p.1 2]).Nodup
      refine List.nodup_cons.2 ⟨?_, List.nodup_singleton _⟩
      simp only [List.mem_singleton]
      intro hcontra
      exact absurd (matchId_inj hcontra).2.2.2 (by omega)
  · refine ((indexPairs_nodup teams.length).imp_of_mem ?_)
    intro p q hp hq hpq
    intro s hsp hsq
    have hpij := (mem_indexPairs.1 hp).1
    have hqij := (mem_indexPairs.1 hq).1
    simp only [List.mem_cons] at hsp hsq
    have hifp : ∀ x, x ∈ (if tl then [matchId now p.2 p.1 2] else []) →
        x = matchId now p.2 p.1 2 := by
      intro x hx; cases tl <;> simp_all
    have hifq : ∀ x, x ∈ (if tl then [matchId now q.2 q.1 2] else []) →
        x = matchId now q.2 q.1 2 := by
      intro x hx; cases tl <;> simp_all
    rcases hsp with rfl | hsp
    · rcases hsq with heq | hsq
      · obtain ⟨-, h1, h2, -⟩ := matchId_inj heq
        exact hpq (Prod.ext h1 h2)
      · have := hifq _ hsq
        obtain ⟨-, -, -, hleg⟩ := matchId_inj this
        omega
    · have hsp' := hifp _ hsp
      rcases hsq with heq | hsq
      · obtain ⟨-, -, -, hleg⟩ := matchId_inj (hsp' ▸ heq)
        omega
      · have hsq' := hifq _ hsq
        obtain ⟨-, h1, h2, -⟩ := matchId_inj (hsp' ▸ hsq')
        exact hpq (Prod.ext h2 h1)

/-! ### calculateStandings (`tournamentUtils.ts`, lines 53-146)

The JavaScript `Map<string, Standings>` is modelled as an association list
with JS `Map` semantics: insertion order is preserved, and setting an existing
key overwrites the value in place. -/

/-- Zero-initialised standings row for a team. -/
def initStandings (t : Team) : Standings :=
  { team := t, played := 0, wins := 0, losses := 0, points := 0,
    pointsFor := 0, pointsAgainst := 0, pointsDifference := 0 }

/-- `Map.set` semantics: overwrite in place if the key exists, else append. -/
def mapInsert (sm : List (String × Standings)) (k : String) (v : Standings) :
    List (String × Standings) :=
  if sm.any (fun e => e.1 = k) then sm.map (fun e => if e.1 = k then (k, v) else e)
  else sm ++ [(k, v)]

/-- The `standingsMap` built from the team list (`new Map(teams.map(...))`). -/
def initMap (teams : List Team) : List (String × Standings) :=
  teams.foldl (fun sm t => mapInsert sm t.id (initStandings t)) []

/-- `Map.get`. -/
def smLookup (sm : List (String × Standings)) (k : String) : Option Standings :=
  (sm.find? (fun e => e.1 = k)).map (fun e => e.2)

/-- In-place update of the value at a key (models mutation of the record the
JS code obtained from `Map.get`). -/
def updateEntry (sm : List (String × Standings)) (k : String)
    (f : Standings → Standings) : List (String × Standings) :=
  sm.map (fun e => if e.1 = k then (e.1, f e.2) else e)

/-- Accumulator of the per-set `forEach` loop: set wins and total points of
each side. -/
structure SetTally where
  sw1 : Nat
  sw2 : Nat
  pts1 : Int
  pts2 : Int
deriving DecidableEq

/-- One step of the per-set loop: sets with a missing score are skipped;
otherwise both totals accumulate and the strictly larger score wins the set. -/
def tallyStep (acc : SetTally) (s : MatchSet) : SetTally :=
  match s.team1, s.team2 with
  | some a, some b =>
    let acc := { acc with pts1 := acc.pts1 + a, pts2 := acc.pts2 + b }
    if a > b then { acc with sw1 := acc.sw1 + 1 }
    else if b > a then { acc with sw2 := acc.sw2 + 1 }
    else acc
  | _, _ => acc

/-- The `match.sets.forEach` tally of `calculateStandings`. -/
def tallySets (sets : List MatchSet) : SetTally :=
  sets.foldl tallyStep ⟨0, 0, 0, 0⟩

/-- Winner-side per-match record update of `calculateStandings`.  The source
mutates the record in place and recomputes `pointsDifference` at the end; here
the same additions are applied functionally. -/
def applyWinner (wPts wPf wPa : Int) (s : Standings) : Standings :=
  let s := { s with played := s.played + 1, wins := s.wins + 1,
                    points := s.points + wPts,
                    pointsFor := s.pointsFor + wPf,
                    pointsAgainst := s.pointsAgainst + wPa }
  { s with pointsDifference := s.pointsFor - s.pointsAgainst }

/-- Loser-side per-match record update of `calculateStandings`. -/
def applyLoser (lPts wPf wPa : Int) (s : Standings) : Standings :=
  let s := { s with played := s.played + 1, losses := s.losses + 1,
                    points := s.points + lPts,
                    pointsFor := s.pointsFor + wPa,
                    pointsAgainst := s.pointsAgainst + wPf }
  { s with pointsDifference := s.pointsFor - s.pointsAgainst }

/-- The loser id of a finished match: the listed team the winner's id does
not match (`const loserId = ...` in the source). -/
def loserIdOf (m : Match) (w : Team) : String :=
  if w.id = m.team1.id then m.team2.id else m.team1.id

/-- Points awarded to the winner by set margin (`winnerSets`/`loserSets` are
the larger and smaller set-win counts). -/
def winnerPts (t : SetTally) : Int :=
  if max t.sw1 t.sw2 = 2 ∧ min t.sw1 t.sw2 = 0 then 3
  else if max t.sw1 t.sw2 = 2 ∧ min t.sw1 t.sw2 = 1 then 2 else 0

/-- Points awarded to the loser by set margin. -/
def loserPts (t : SetTally) : Int :=
  if max t.sw1 t.sw2 = 2 ∧ min t.sw1 t.sw2 = 1 then 1 else 0

/-- The winner side's total set points (`isTeam1Winner` selects which). -/
def winnerPf (m : Match) (w : Team) (t : SetTally) : Int :=
  if m.team1.id = w.id then t.pts1 else t.pts2

/-- The winner side's conceded set points. -/
def winnerPa (m : Match) (w : Team) (t : SetTally) : Int :=
  if m.team1.id = w.id then t.pts2 else t.pts1

/-- The map updates of the `forEach` body, for a finished match with winner
`w` (after the `!winnerStandings || !loserStandings` guard).  When
`w.id = loserIdOf m w` (a degenerate match listing the same team id twice)
the source's two record references alias one JS object, so both the
winner-side and loser-side mutations accumulate on it; applying the winner
update and then the loser update to the map reproduces exactly that
behaviour, because `pointsDifference` is recomputed from the final sums by
the last update. -/
def processFinished (sm : List (String × Standings)) (m : Match) (w : Team) :
    List (String × Standings) :=
  if (smLookup sm w.id).isSome ∧ (smLookup sm (loserIdOf m w)).isSome then
    updateEntry
      (updateEntry sm w.id
        (applyWinner (winnerPts (tallySets m.sets))
          (winnerPf m w (tallySets m.sets)) (winnerPa m w (tallySets m.sets))))
      (loserIdOf m w)
      (applyLoser (loserPts (tallySets m.sets))
        (winnerPf m w (tallySets m.sets)) (winnerPa m w (tallySets m.sets)))
  else sm

/-- Body of the `relevantMatches.forEach` loop of `calculateStandings`. -/
def processMatch (sm : List (String × Standings)) (m : Match) :
    List (String × Standings) :=
  if m.status ≠ MatchStatus.Finished then sm
  else
    match m.winner with
    | none => sm
    | some w => processFinished sm m w

/-- The `relevantMatches` filter: both participants' ids occur in the team
list. -/
def relevantB (teams : List Team) (m : Match) : Bool :=
  teams.any (fun t => t.id = m.team1.id) && teams.any (fun t => t.id = m.team2.id)

/-- The comparator passed to `standings.sort`, returning a signed integer. -/
def cmpStandings (a b : Standings) : Int :=
  if b.points ≠ a.points then b.points - a.points
  else if b.wins ≠ a.wins then (b.wins : Int) - (a.wins : Int)
  else if b.pointsDifference ≠ a.pointsDifference then
    b.pointsDifference - a.pointsDifference
  else b.pointsFor - a.pointsFor

/-- The total preorder induced by the comparator: `a` may come before `b`. -/
def standingsLe (a b : Standings) : Prop := cmpStandings a b ≤ 0

instance : DecidableRel standingsLe :=
  fun a b => inferInstanceAs (Decidable (cmpStandings a b ≤ 0))

/-- `calculateStandings` (`tournamentUtils.ts` lines 53-146).  JS
`Array.prototype.sort` is a stable sort and the comparator is a consistent
total preorder, so the stable `insertionSort` computes the same result. -/
def calculateStandings (teams : List Team) (ms : List Match) :
    List Standings :=
  let sm := initMap teams
  let relevantMatches := ms.filter (relevantB teams)
  let final := relevantMatches.foldl processMatch sm
  List.insertionSort standingsLe (final.map (fun e => e.2))

/-! ### handleUpdateMatch (`src/App.tsx`, lines 163-204) -/

/-- Set-win counter of `handleUpdateMatch` (two independent `if`s per set;
sets with a missing score are skipped). -/
def setWinsPair (sets : List MatchSet) : Nat × Nat :=
  sets.foldl
    (fun acc s =>
      match s.team1, s.team2 with
      | some a, some b =>
        ((if a > b then acc.1 + 1 else acc.1), (if b > a then acc.2 + 1 else acc.2))
      | _, _ => acc)
    (0, 0)

/-- The merged match `{ ...match, ...newMatchData }`: keys present in the
partial update overwrite. -/
def mergedMatch (m : Match) (newSets : Option (List MatchSet))
    (newDate : Option String) : Match :=
  { m with sets := newSets.getD m.sets, date := newDate.getD m.date }

/-- The recomputed winner of `handleUpdateMatch`: the first listed team with
at least two set wins, else null. -/
def newWinner (um : Match) : Option Team :=
  if (setWinsPair um.sets).1 ≥ 2 then some um.team1
  else if (setWinsPair um.sets).2 ≥ 2 then some um.team2
  else none

/-- The per-match body of `handleUpdateMatch`: merge the partial update,
then recompute winner and status. -/
def updateMatchResult (m : Match) (newSets : Option (List MatchSet))
    (newDate : Option String) : Match :=
  { mergedMatch m newSets newDate with
    winner := newWinner (mergedMatch m newSets newDate),
    status := if (newWinner (mergedMatch m newSets newDate)).isSome
              then MatchStatus.Finished else MatchStatus.Pending }

/-- `handleUpdateMatch` (`App.tsx` lines 163-204), restricted to its pure
core: the function passed to `setMatches`, mapping over the previous list. -/
def handleUpdateMatch (ms : List Match) (mid : String)
    (newSets : Option (List MatchSet)) (newDate : Option String) : List Match :=
  ms.map (fun m => if m.id = mid then updateMatchResult m newSets newDate else m)

/-! ### Association-list map lemmas -/

/-- The keys of the standings map, in order. -/
def smKeys (sm : List (String × Standings)) : List String := sm.map (fun e => e.1)

theorem smKeys_updateEntry (sm : List (String × Standings)) (k : String)
    (f : Standings → Standings) : smKeys (updateEntry sm k f) = smKeys sm := by
  induction sm with
  | nil => rfl
  | cons e t ih =>
    simp only [updateEntry, smKeys, List.map_cons] at *
    by_cases h : e.1 = k
    · simp [h, ih]
    · simp [h, ih]

theorem smLookup_cons_pos (e : String × Standings) (t : List (String × Standings))
    (k : String) (h : e.1 = k) : smLookup (e :: t) k = some e.2 := by
  simp [smLookup, List.find?_cons_of_pos, h]

theorem smLookup_cons_neg (e : String × Standings) (t : List (String × Standings))
    (k : String) (h : e.1 ≠ k) : smLookup (e :: t) k = smLookup t k := by
  simp only [smLookup]
  rw [List.find?_cons_of_neg]
  simpa using h

theorem updateEntry_cons (e : String × Standings) (t : List (String × Standings))
    (k : String) (f : Standings → Standings) :
    updateEntry (e :: t) k f =
      (if e.1 = k then (e.1, f e.2) else e) :: updateEntry t k f := rfl

theorem smLookup_updateEntry_self (sm : List (String × Standings)) (k : String)
    (f : Standings → Standings) :
    smLookup (updateEntry sm k f) k = (smLookup sm k).map f := by
  induction sm with
  | nil => rfl
  | cons e t ih =>
    rw [updateEntry_cons]
    by_cases h : e.1 = k
    · rw [if_pos h, smLookup_cons_pos (e.1, f e.2) _ _ h, smLookup_cons_pos e _ _ h]
      rfl
    · rw [if_neg h, smLookup_cons_neg _ _ _ h, smLookup_cons_neg e _ _ h, ih]

theorem smLookup_updateEntry_ne (sm : List (String × Standings)) (k k' : String)
    (f : Standings → Standings) (h : k' ≠ k) :
    smLookup (updateEntry sm k f) k' = smLookup sm k' := by
  induction sm with
  | nil => rfl
  | cons e t ih =>
    rw [updateEntry_cons]
    by_cases he : e.1 = k
    · have hne : e.1 ≠ k' := fun hc => h (hc ▸ he ▸ rfl)
      rw [if_pos he, smLookup_cons_neg _ _ _ (by simpa using hne),
        smLookup_cons_neg _ _ _ hne, ih]
    · by_cases he' : e.1 = k'
      · rw [if_neg he, smLookup_cons_pos _ _ _ he', smLookup_cons_pos _ _ _ he']
      · rw [if_neg he, smLookup_cons_neg _ _ _ he', smLookup_cons_neg _ _ _ he', ih]

theorem smLookup_isSome_iff (sm : List (String × Standings)) (k : String) :
    (smLookup sm k).isSome ↔ k ∈ smKeys sm := by
  induction sm with
  | nil => simp [smLookup, smKeys]
  | cons e t ih =>
    by_cases h : e.1 = k
    · rw [smLookup_cons_pos _ _ _ h]
      simp [smKeys, h]
    · rw [smLookup_cons_neg _ _ _ h, ih]
      have : ¬(k = e.1) := fun hc => h hc.symm
      simp [smKeys, this]

theorem smKeys_processFinished (sm : List (String × Standings)) (m : Match) (w : Team) :
    smKeys (processFinished sm m w) = smKeys sm := by
  rw [processFinished]
  split
  · rw [smKeys_updateEntry, smKeys_updateEntry]
  · rfl

theorem smKeys_processMatch (sm : List (String × Standings)) (m : Match) :
    smKeys (processMatch sm m) = smKeys sm := by
  rw [processMatch]
  split
  · rfl
  · cases m.winner with
    | none => rfl
    | some w => exact smKeys_processFinished sm m w

theorem smKeys_foldl (ms : List Match) (sm : List (String × Standings)) :
    smKeys (ms.foldl processMatch sm) = smKeys sm := by
  induction ms generalizing sm with
  | nil => rfl
  | cons m t ih => rw [List.foldl_cons, ih, smKeys_processMatch]

/-- A match that is not finished, or has no recorded winner, is a no-op. -/
theorem processMatch_noop_of_unfinished (sm : List (String × Standings)) (m : Match)
    (h : m.status ≠ MatchStatus.Finished ∨ m.winner = none) :
    processMatch sm m = sm := by
  rw [processMatch]
  rcases h with h | h
  · rw [if_pos h]
  · split
    · rfl
    · rw [h]

/-- A match whose winner's id is not a key of the map is a no-op. -/
theorem processMatch_noop_of_absent_winner (sm : List (String × Standings)) (m : Match)
    (w : Team) (hw : m.winner = some w) (h : smLookup sm w.id = none) :
    processMatch sm m = sm := by
  rw [processMatch]
  split
  · rfl
  · rw [hw]
    show processFinished sm m w = sm
    rw [processFinished, if_neg]
    intro hc
    rw [h] at hc
    exact absurd hc.1 (by simp)

/-! ### initMap lemmas -/

theorem smKeys_mapInsert (sm : List (String × Standings)) (k : String) (v : Standings) :
    smKeys (mapInsert sm k v) =
      if sm.any (fun e => e.1 = k) then smKeys sm else smKeys sm ++ [k] := by
  rw [mapInsert]
  split
  · rename_i h
    simp only [smKeys, List.map_map]
    refine List.map_congr_left (fun e _ => ?_)
    simp only [Function.comp_apply]
    by_cases h' : e.1 = k
    · rw [if_pos h']
      exact h'.symm
    · rw [if_neg h']
  · simp [smKeys]

theorem mapInsert_keys_mem (sm : List (String × Standings)) (k : String) (v : Standings)
    (k' : String) : k' ∈ smKeys (mapInsert sm k v) ↔ k' ∈ smKeys sm ∨ k' = k := by
  rw [smKeys_mapInsert]
  split
  · rename_i h
    constructor
    · exact Or.inl
    · rintro (h' | rfl)
      · exact h'
      · rcases List.any_eq_true.1 h with ⟨e, he, hek⟩
        simp only [decide_eq_true_eq] at hek
        exact hek ▸ List.mem_map.2 ⟨e, he, rfl⟩
  · simp

theorem mem_smKeys_initMap (teams : List Team) (k : String) :
    k ∈ smKeys (initMap teams) ↔ ∃ t ∈ teams, t.id = k := by
  suffices h : ∀ (acc : List (String × Standings)),
      k ∈ smKeys (teams.foldl (fun sm t => mapInsert sm t.id (initStandings t)) acc) ↔
        k ∈ smKeys acc ∨ ∃ t ∈ teams, t.id = k by
    rw [initMap, h []]
    simp [smKeys]
  induction teams with
  | nil => simp
  | cons t ts ih =>
    intro acc
    rw [List.foldl_cons, ih, mapInsert_keys_mem]
    constructor
    · rintro ((h | h) | h)
      · exact Or.inl h
      · exact Or.inr ⟨t, List.mem_cons_self .., h.symm⟩
      · obtain ⟨u, hu, hk⟩ := h
        exact Or.inr ⟨u, List.mem_cons_of_mem _ hu, hk⟩
    · rintro (h | ⟨u, hu, hk⟩)
      · exact Or.inl (Or.inl h)
      · rcases List.mem_cons.1 hu with rfl | hu
        · exact Or.inl (Or.inr hk.symm)
        · exact Or.inr ⟨u, hu, hk⟩

theorem mapInsert_entry_mem (sm : List (String × Standings)) (k : String) (v : Standings)
    (e : String × Standings) (he : e ∈ mapInsert sm k v) :
    e ∈ sm ∨ e = (k, v) := by
  rw [mapInsert] at he
  split at he
  · rcases List.mem_map.1 he with ⟨e', he', heq⟩
    by_cases h' : e'.1 = k
    · rw [if_pos h'] at heq
      exact Or.inr heq.symm
    · rw [if_neg h'] at heq
      exact Or.inl (heq ▸ he')
  · rcases List.mem_append.1 he with h | h
    · exact Or.inl h
    · simp only [List.mem_singleton] at h
      exact Or.inr h

theorem initMap_entry_aux (teams : List Team) :
    ∀ (acc : List (String × Standings)) (e : String × Standings),
      e ∈ teams.foldl (fun sm t => mapInsert sm t.id (initStandings t)) acc →
        e ∈ acc ∨ ∃ t ∈ teams, e = (t.id, initStandings t) := by
  induction teams with
  | nil => intro acc e h; exact Or.inl h
  | cons t ts ih =>
    intro acc e h
    rw [List.foldl_cons] at h
    rcases ih _ _ h with h' | h'
    · rcases mapInsert_entry_mem _ _ _ _ h' with h'' | h''
      · exact Or.inl h''
      · exact Or.inr ⟨t, List.mem_cons_self .., h''⟩
    · obtain ⟨u, hu, hk⟩ := h'
      exact Or.inr ⟨u, List.mem_cons_of_mem _ hu, hk⟩

theorem initMap_entry (teams : List Team) (e : String × Standings)
    (he : e ∈ initMap teams) : ∃ t ∈ teams, e = (t.id, initStandings t) := by
  rcases initMap_entry_aux teams [] e he with h' | h'
  · simp at h'
  · exact h'

theorem mapInsert_keys_nodup (sm : List (String × Standings)) (k : String) (v : Standings)
    (h : (smKeys sm).Nodup) : (smKeys (mapInsert sm k v)).Nodup := by
  rw [smKeys_mapInsert]
  split
  · exact h
  · rename_i hk
    rw [List.nodup_append]
    refine ⟨h, List.nodup_singleton _, ?_⟩
    intro a ha hb
    simp only [List.mem_singleton] at hb
    subst hb
    rcases List.mem_map.1 ha with ⟨e, he, rfl⟩
    exact hk (List.any_eq_true.2 ⟨e, he, by simp⟩)

theorem initMap_keys_nodup (teams : List Team) : (smKeys (initMap teams)).Nodup := by
  suffices h : ∀ (acc : List (String × Standings)), (smKeys acc).Nodup →
      (smKeys (teams.foldl (fun sm t => mapInsert sm t.id (initStandings t)) acc)).Nodup by
    exact h [] (by simp [smKeys])
  induction teams with
  | nil => intro acc h; exact h
  | cons t ts ih =>
    intro acc h
    rw [List.foldl_cons]
    exact ih _ (mapInsert_keys_nodup _ _ _ h)

theorem smLookup_eq_of_mem (sm : List (String × Standings)) (k : String) (v : Standings)
    (hnd : (smKeys sm).Nodup) (h : (k, v) ∈ sm) : smLookup sm k = some v := by
  induction sm with
  | nil => simp at h
  | cons e t ih =>
    simp only [smKeys, List.map_cons, List.nodup_cons] at hnd
    rcases List.mem_cons.1 h with rfl | h'
    · simp [smLookup, List.find?]
    · have hne : e.1 ≠ k := by
        intro hc
        exact hnd.1 (hc ▸ List.mem_map.2 ⟨(k, v), h', rfl⟩)
      rw [smLookup_cons_neg e t k hne]
      exact ih (by simpa [smKeys] using hnd.2) h'

/-! ### Skip lemmas (matches that contribute nothing) -/

/-- If a match is either filtered out as irrelevant or is a no-op on every map
with the initial key set, removing it from the match list does not change the
standings. -/
theorem calculateStandings_skip (teams : List Team) (ms1 ms2 : List Match) (m : Match)
    (h : relevantB teams m = true →
      ∀ sm, smKeys sm = smKeys (initMap teams) → processMatch sm m = sm) :
    calculateStandings teams (ms1 ++ m :: ms2) = calculateStandings teams (ms1 ++ ms2) := by
  simp only [calculateStandings]
  rw [List.filter_append, List.filter_append, List.filter_cons]
  by_cases hrel : relevantB teams m = true
  · rw [if_pos hrel, List.foldl_append, List.foldl_append, List.foldl_cons]
    rw [h hrel _ (smKeys_foldl _ _)]
  · rw [if_neg hrel]

/-! ### Per-match accounting

`chargeOf` extracts, for a given key set `K` (the ids of the standings map),
the data the `forEach` body charges for a match, or `none` when the match is
skipped.  The contribution functions give each statistic's increment for a
single team id, and the step/fold lemmas show the map evolves by exactly
those increments. -/

/-- The charge of a processed match: who is charged as winner/loser and the
point amounts involved. -/
structure Charge where
  winnerId : String
  loserId : String
  wPts : Int
  lPts : Int
  wPf : Int
  wPa : Int

/-- Charge data of a match, relative to key set `K`; `none` when the
`forEach` body skips the match. -/
def chargeOf (K : List String) (m : Match) : Option Charge :=
  if m.status ≠ MatchStatus.Finished then none
  else
    match m.winner with
    | none => none
    | some w =>
      if w.id ∈ K ∧ loserIdOf m w ∈ K then
        some { winnerId := w.id, loserId := loserIdOf m w,
               wPts := winnerPts (tallySets m.sets),
               lPts := loserPts (tallySets m.sets),
               wPf := winnerPf m w (tallySets m.sets),
               wPa := winnerPa m w (tallySets m.sets) }
      else none

/-- Increment of `played` for team id `tid` from match `m`. -/
def playedC (K : List String) (m : Match) (tid : String) : Nat :=
  match chargeOf K m with
  | none => 0
  | some c => (if tid = c.winnerId then 1 else 0) + (if tid = c.loserId then 1 else 0)

/-- Increment of `wins`. -/
def winsC (K : List String) (m : Match) (tid : String) : Nat :=
  match chargeOf K m with
  | none => 0
  | some c => if tid = c.winnerId then 1 else 0

/-- Increment of `losses`. -/
def lossesC (K : List String) (m : Match) (tid : String) : Nat :=
  match chargeOf K m with
  | none => 0
  | some c => if tid = c.loserId then 1 else 0

/-- Increment of `points`. -/
def pointsC (K : List String) (m : Match) (tid : String) : Int :=
  match chargeOf K m with
  | none => 0
  | some c => (if tid = c.winnerId then c.wPts else 0) + (if tid = c.loserId then c.lPts else 0)

/-- Increment of `pointsFor`. -/
def pfC (K : List String) (m : Match) (tid : String) : Int :=
  match chargeOf K m with
  | none => 0
  | some c => (if tid = c.winnerId then c.wPf else 0) + (if tid = c.loserId then c.wPa else 0)

/-- Increment of `pointsAgainst`. -/
def paC (K : List String) (m : Match) (tid : String) : Int :=
  match chargeOf K m with
  | none => 0
  | some c => (if tid = c.winnerId then c.wPa else 0) + (if tid = c.loserId then c.wPf else 0)

theorem chargeOf_eq_none_unfinished (K : List String) (m : Match)
    (h : m.status ≠ MatchStatus.Finished ∨ m.winner = none) :
    chargeOf K m = none := by
  rw [chargeOf]
  rcases h with h | h
  · rw [if_pos h]
  · split
    · rfl
    · rw [h]

/-- One processed match advances every present record by exactly its per-team
contributions, preserves the `team` field, and preserves the
`pointsDifference = pointsFor - pointsAgainst` invariant. -/
theorem processMatch_lookup (sm : List (String × Standings)) (m : Match) (tid : String)
    (r : Standings) (hr : smLookup sm tid = some r) :
    ∃ r', smLookup (processMatch sm m) tid = some r' ∧
      r'.team = r.team ∧
      r'.played = r.played + playedC (smKeys sm) m tid ∧
      r'.wins = r.wins + winsC (smKeys sm) m tid ∧
      r'.losses = r.losses + lossesC (smKeys sm) m tid ∧
      r'.points = r.points + pointsC (smKeys sm) m tid ∧
      r'.pointsFor = r.pointsFor + pfC (smKeys sm) m tid ∧
      r'.pointsAgainst = r.pointsAgainst + paC (smKeys sm) m tid ∧
      (r.pointsDifference = r.pointsFor - r.pointsAgainst →
        r'.pointsDifference = r'.pointsFor - r'.pointsAgainst) := by
  by_cases hst : m.status ≠ MatchStatus.Finished
  · have hc : chargeOf (smKeys sm) m = none := chargeOf_eq_none_unfinished _ _ (Or.inl hst)
    have hp : processMatch sm m = sm := processMatch_noop_of_unfinished _ _ (Or.inl hst)
    exact ⟨r, by rw [hp, hr], rfl,
      by simp [playedC, hc], by simp [winsC, hc], by simp [lossesC, hc],
      by simp [pointsC, hc], by simp [pfC, hc], by simp [paC, hc], fun h => h⟩
  · cases hw : m.winner with
    | none =>
      have hc : chargeOf (smKeys sm) m = none := chargeOf_eq_none_unfinished _ _ (Or.inr hw)
      have hp : processMatch sm m = sm := processMatch_noop_of_unfinished _ _ (Or.inr hw)
      exact ⟨r, by rw [hp, hr], rfl,
        by simp [playedC, hc], by simp [winsC, hc], by simp [lossesC, hc],
        by simp [pointsC, hc], by simp [pfC, hc], by simp [paC, hc], fun h => h⟩
    | some w =>
      have hpm : processMatch sm m = processFinished sm m w := by
        rw [processMatch, if_neg hst, hw]
      by_cases hl : (smLookup sm w.id).isSome ∧ (smLookup sm (loserIdOf m w)).isSome
      · have hmem : w.id ∈ smKeys sm ∧ loserIdOf m w ∈ smKeys sm :=
          ⟨(smLookup_isSome_iff sm w.id).1 hl.1, (smLookup_isSome_iff sm _).1 hl.2⟩
        have hc : chargeOf (smKeys sm) m =
            some { winnerId := w.id, loserId := loserIdOf m w,
                   wPts := winnerPts (tallySets m.sets),
                   lPts := loserPts (tallySets m.sets),
                   wPf := winnerPf m w (tallySets m.sets),
                   wPa := winnerPa m w (tallySets m.sets) } := by
          simp only [chargeOf, if_neg hst, hw]
          rw [if_pos hmem]
        have hpf : processFinished sm m w =
            updateEntry
              (updateEntry sm w.id
                (applyWinner (winnerPts (tallySets m.sets))
                  (winnerPf m w (tallySets m.sets)) (winnerPa m w (tallySets m.sets))))
              (loserIdOf m w)
              (applyLoser (loserPts (tallySets m.sets))
                (winnerPf m w (tallySets m.sets)) (winnerPa m w (tallySets m.sets))) := by
          rw [processFinished, if_pos hl]
        by_cases hw1 : tid = w.id <;> by_cases hw2 : tid = loserIdOf m w
        · have hq : playedC (smKeys sm) m tid = 2 ∧ winsC (smKeys sm) m tid = 1 ∧
              lossesC (smKeys sm) m tid = 1 ∧
              pointsC (smKeys sm) m tid =
                winnerPts (tallySets m.sets) + loserPts (tallySets m.sets) ∧
              pfC (smKeys sm) m tid =
                winnerPf m w (tallySets m.sets) + winnerPa m w (tallySets m.sets) ∧
              paC (smKeys sm) m tid =
                winnerPa m w (tallySets m.sets) + winnerPf m w (tallySets m.sets) := by
            refine ⟨?_, ?_, ?_, ?_, ?_, ?_⟩ <;>
              simp [playedC, winsC, lossesC, pointsC, pfC, paC, hc, ← hw1, ← hw2]
          obtain ⟨hq1, hq2, hq3, hq4, hq5, hq6⟩ := hq
          refine ⟨applyLoser (loserPts (tallySets m.sets)) (winnerPf m w (tallySets m.sets))
              (winnerPa m w (tallySets m.sets))
              (applyWinner (winnerPts (tallySets m.sets)) (winnerPf m w (tallySets m.sets))
                (winnerPa m w (tallySets m.sets)) r), ?_, ?_, ?_, ?_, ?_, ?_, ?_, ?_, ?_⟩
          · rw [hpm, hpf, hw2, smLookup_updateEntry_self, ← hw2, hw1,
              smLookup_updateEntry_self, ← hw1, hr]
            rfl
          · simp [applyWinner, applyLoser]
          · rw [hq1]; simp [applyWinner, applyLoser]
          · rw [hq2]; simp [applyWinner, applyLoser]
          · rw [hq3]; simp [applyWinner, applyLoser]
          · rw [hq4]; simp [applyWinner, applyLoser]; ring
          · rw [hq5]; simp [applyWinner, applyLoser]; ring
          · rw [hq6]; simp [applyWinner, applyLoser]; ring
          · intro h
            simp [applyWinner, applyLoser]
        · have hq : playedC (smKeys sm) m tid = 1 ∧ winsC (smKeys sm) m tid = 1 ∧
              lossesC (smKeys sm) m tid = 0 ∧
              pointsC (smKeys sm) m tid = winnerPts (tallySets m.sets) ∧
              pfC (smKeys sm) m tid = winnerPf m w (tallySets m.sets) ∧
              paC (smKeys sm) m tid = winnerPa m w (tallySets m.sets) := by
            refine ⟨?_, ?_, ?_, ?_, ?_, ?_⟩ <;>
              simp [playedC, winsC, lossesC, pointsC, pfC, paC, hc, ← hw1, hw2]
          obtain ⟨hq1, hq2, hq3, hq4, hq5, hq6⟩ := hq
          refine ⟨applyWinner (winnerPts (tallySets m.sets)) (winnerPf m w (tallySets m.sets))
              (winnerPa m w (tallySets m.sets)) r, ?_, ?_, ?_, ?_, ?_, ?_, ?_, ?_, ?_⟩
          · rw [hpm, hpf, smLookup_updateEntry_ne _ _ _ _ hw2, hw1,
              smLookup_updateEntry_self, ← hw1, hr]
            rfl
          · simp [applyWinner]
          · rw [hq1]; simp [applyWinner]
          · rw [hq2]; simp [applyWinner]
          · rw [hq3]; simp [applyWinner]
          · rw [hq4]; simp [applyWinner]
          · rw [hq5]; simp [applyWinner]
          · rw [hq6]; simp [applyWinner]
          · intro h
            simp [applyWinner]
        · have hq : playedC (smKeys sm) m tid = 1 ∧ winsC (smKeys sm) m tid = 0 ∧
              lossesC (smKeys sm) m tid = 1 ∧
              pointsC (smKeys sm) m tid = loserPts (tallySets m.sets) ∧
              pfC (smKeys sm) m tid = winnerPa m w (tallySets m.sets) ∧
              paC (smKeys sm) m tid = winnerPf m w (tallySets m.sets) := by
            refine ⟨?_, ?_, ?_, ?_, ?_, ?_⟩ <;>
              simp [playedC, winsC, lossesC, pointsC, pfC, paC, hc, hw1, ← hw2]
          obtain ⟨hq1, hq2, hq3, hq4, hq5, hq6⟩ := hq
          refine ⟨applyLoser (loserPts (tallySets m.sets)) (winnerPf m w (tallySets m.sets))
              (winnerPa m w (tallySets m.sets)) r, ?_, ?_, ?_, ?_, ?_, ?_, ?_, ?_, ?_⟩
          · rw [hpm, hpf, hw2, smLookup_updateEntry_self, ← hw2,
              smLookup_updateEntry_ne _ _ _ _ hw1, hr]
            rfl
          · simp [applyLoser]
          · rw [hq1]; simp [applyLoser]
          · rw [hq2]; simp [applyLoser]
          · rw [hq3]; simp [applyLoser]
          · rw [hq4]; simp [applyLoser]
          · rw [hq5]; simp [applyLoser]
          · rw [hq6]; simp [applyLoser]
          · intro h
            simp [applyLoser]
        · have hq : playedC (smKeys sm) m tid = 0 ∧ winsC (smKeys sm) m tid = 0 ∧
              lossesC (smKeys sm) m tid = 0 ∧ pointsC (smKeys sm) m tid = 0 ∧
              pfC (smKeys sm) m tid = 0 ∧ paC (smKeys sm) m tid = 0 := by
            refine ⟨?_, ?_, ?_, ?_, ?_, ?_⟩ <;>
              simp [playedC, winsC, lossesC, pointsC, pfC, paC, hc, hw1, hw2]
          obtain ⟨hq1, hq2, hq3, hq4, hq5, hq6⟩ := hq
          refine ⟨r, ?_, rfl, ?_, ?_, ?_, ?_, ?_, ?_, fun h => h⟩
          · rw [hpm, hpf, smLookup_updateEntry_ne _ _ _ _ hw2,
              smLookup_updateEntry_ne _ _ _ _ hw1, hr]
          · rw [hq1]
            omega
          · rw [hq2]
            omega
          · rw [hq3]
            omega
          · rw [hq4]
            omega
          · rw [hq5]
            omega
          · rw [hq6]
            omega
      · have hc : chargeOf (smKeys sm) m = none := by
          rw [chargeOf, if_neg hst, hw]
          exact if_neg (fun hmem => hl ⟨(smLookup_isSome_iff sm w.id).2 hmem.1,
            (smLookup_isSome_iff sm _).2 hmem.2⟩)
        have hp : processMatch sm m = sm := by
          rw [hpm, processFinished, if_neg hl]
        exact ⟨r, by rw [hp, hr], rfl,
          by simp [playedC, hc], by simp [winsC, hc], by simp [lossesC, hc],
          by simp [pointsC, hc], by simp [pfC, hc], by simp [paC, hc], fun h => h⟩

/-- Folding a match list over the map advances every present record by the
sum of the per-match contributions. -/
theorem foldl_lookup (ms : List Match) (sm : List (String × Standings)) (tid : String)
    (r : Standings) (hr : smLookup sm tid = some r) :
    ∃ r', smLookup (ms.foldl processMatch sm) tid = some r' ∧
      r'.team = r.team ∧
      r'.played = r.played + (ms.map (fun m => playedC (smKeys sm) m tid)).sum ∧
      r'.wins = r.wins + (ms.map (fun m => winsC (smKeys sm) m tid)).sum ∧
      r'.losses = r.losses + (ms.map (fun m => lossesC (smKeys sm) m tid)).sum ∧
      r'.points = r.points + (ms.map (fun m => pointsC (smKeys sm) m tid)).sum ∧
      r'.pointsFor = r.pointsFor + (ms.map (fun m => pfC (smKeys sm) m tid)).sum ∧
      r'.pointsAgainst = r.pointsAgainst + (ms.map (fun m => paC (smKeys sm) m tid)).sum ∧
      (r.pointsDifference = r.pointsFor - r.pointsAgainst →
        r'.pointsDifference = r'.pointsFor - r'.pointsAgainst) := by
  induction ms generalizing sm r with
  | nil =>
    exact ⟨r, hr, rfl, by simp, by simp, by simp, by simp, by simp, by simp, fun h => h⟩
  | cons m t ih =>
    obtain ⟨r1, hr1, ht1, hp1, hw1, hl1, hpt1, hpf1, hpa1, hpd1⟩ :=
      processMatch_lookup sm m tid r hr
    obtain ⟨r', hr', ht', hp', hw', hl', hpt', hpf', hpa', hpd'⟩ :=
      ih (processMatch sm m) r1 hr1
    rw [smKeys_processMatch] at hp' hw' hl' hpt' hpf' hpa'
    refine ⟨r', hr', ht'.trans ht1, ?_, ?_, ?_, ?_, ?_, ?_, fun h => hpd' (hpd1 h)⟩
    · rw [hp', hp1]; simp; omega
    · rw [hw', hw1]; simp; omega
    · rw [hl', hl1]; simp; omega
    · rw [hpt', hpt1]; simp; omega
    · rw [hpf', hpf1]; simp; omega
    · rw [hpa', hpa1]; simp; omega

/-! ### The sort order -/

/-- The sort order stated by the spec: descending points, then descending
wins, then descending point-difference, then descending points-for.  This is
the spec-side description of the comparator, to be compared with
`cmpStandings` from the source. -/
def specStandingsOrder (a b : Standings) : Prop :=
  a.points > b.points ∨ (a.points = b.points ∧
    (a.wins > b.wins ∨ (a.wins = b.wins ∧
      (a.pointsDifference > b.pointsDifference ∨ (a.pointsDifference = b.pointsDifference ∧
        a.pointsFor ≥ b.pointsFor)))))

theorem standingsLe_iff (a b : Standings) : standingsLe a b ↔ specStandingsOrder a b := by
  rw [standingsLe, cmpStandings, specStandingsOrder]
  by_cases h1 : b.points ≠ a.points
  · rw [if_pos h1]; omega
  · rw [if_neg h1]
    by_cases h2 : b.wins ≠ a.wins
    · rw [if_pos h2]; omega
    · rw [if_neg h2]
      by_cases h3 : b.pointsDifference ≠ a.pointsDifference
      · rw [if_pos h3]; omega
      · rw [if_neg h3]; omega

instance : IsTotal Standings standingsLe :=
  ⟨fun a b => by
    rw [standingsLe_iff, standingsLe_iff, specStandingsOrder, specStandingsOrder]
    omega⟩

instance : IsTrans Standings standingsLe :=
  ⟨fun a b c => by
    rw [standingsLe_iff, standingsLe_iff, standingsLe_iff,
      specStandingsOrder, specStandingsOrder, specStandingsOrder]
    omega⟩

theorem calculateStandings_sorted (teams : List Team) (ms : List Match) :
    (calculateStandings teams ms).Pairwise specStandingsOrder := by
  have h := List.sorted_insertionSort standingsLe
    (((ms.filter (relevantB teams)).foldl processMatch (initMap teams)).map (fun e => e.2))
  exact (List.Pairwise.imp (fun hab => (standingsLe_iff _ _).1 hab)) h

/-- Membership in the output of `calculateStandings` is membership in the
final map's values. -/
theorem mem_calculateStandings (teams : List Team) (ms : List Match) (r : Standings) :
    r ∈ calculateStandings teams ms ↔
      r ∈ ((ms.filter (relevantB teams)).foldl processMatch (initMap teams)).map
        (fun e => e.2) := by
  exact List.mem_insertionSort standingsLe

/-! ### Spec-side definitions

These formalise wordings of the spec sentence by sentence, to be compared
with the source-derived definitions above. -/

/-- A set where both scores are present (spec: "scores must both be
present"). -/
def bothPresent (s : MatchSet) : Bool := s.team1.isSome && s.team2.isSome

/-- Spec-side sum of team1's scores over the sets with both scores present. -/
def specSetSum1 (m : Match) : Int :=
  ((m.sets.filter bothPresent).map (fun s => s.team1.getD 0)).sum

/-- Spec-side sum of team2's scores over the sets with both scores present. -/
def specSetSum2 (m : Match) : Int :=
  ((m.sets.filter bothPresent).map (fun s => s.team2.getD 0)).sum

/-- Spec-side `pointsFor` contribution of a counted match to a team id:
"that team's set scores" over the sets with both scores present. -/
def specPointsForContrib (m : Match) (tid : String) : Int :=
  if tid = m.team1.id then specSetSum1 m
  else if tid = m.team2.id then specSetSum2 m else 0

/-- Spec-side `pointsAgainst` contribution: "the opposing team's set
scores". -/
def specPointsAgainstContrib (m : Match) (tid : String) : Int :=
  if tid = m.team1.id then specSetSum2 m
  else if tid = m.team2.id then specSetSum1 m else 0

/-- A counted match in the claims' sense: both teams in the team set, status
Finished, winner non-null. -/
def countedB (teams : List Team) (m : Match) : Bool :=
  relevantB teams m && decide (m.status = MatchStatus.Finished) && m.winner.isSome

/-- The match charges team id `tid` as winner or loser (and is counted). -/
def chargedTo (teams : List Team) (m : Match) (tid : String) : Bool :=
  relevantB teams m &&
    match chargeOf (smKeys (initMap teams)) m with
    | some c => decide (tid = c.winnerId) || decide (tid = c.loserId)
    | none => false

/-- Everything about a match except its identifier. -/
def matchContent (m : Match) :
    String × Team × Team × List MatchSet × Option Team × MatchStatus × String :=
  (m.categoryId, m.team1, m.team2, m.sets, m.winner, m.status, m.date)

/-- The spec's match invariant: status is Finished iff a winner has been
determined, and the winner is the listed team with at least two set wins
(over the sets with both scores present). -/
def matchInvariant (m : Match) : Prop :=
  (m.status = MatchStatus.Finished ↔ m.winner ≠ none) ∧
  (∀ t, m.winner = some t →
    (t = m.team1 ∧ 2 ≤ (setWinsPair m.sets).1) ∨
    (t = m.team2 ∧ 2 ≤ (setWinsPair m.sets).2))

/-! ### Concrete inputs used by witnesses and counterexamples -/

/-- Concrete team A. -/
def tA : Team := ⟨"A", "Equipo A", []⟩

/-- Concrete team B. -/
def tB : Team := ⟨"B", "Equipo B", []⟩

/-- Concrete team C. -/
def tC : Team := ⟨"C", "Equipo C", []⟩

/-- A team whose id occurs in no team list used below. -/
def tZ : Team := ⟨"Z", "Equipo Z", []⟩

/-- Concrete category. -/
def catX : Category := ⟨"cat1", "Primera", ["A", "B", "C"]⟩

/-- A finished match between A and B whose recorded winner is the third team
C (an inconsistent record). -/
def mOrphan : Match :=
  ⟨"m1", "cat1", tA, tB, [⟨some 18, some 10⟩, ⟨some 18, some 10⟩, ⟨none, none⟩],
    some tC, MatchStatus.Finished, ""⟩

/-- A finished match between A and B whose recorded winner's id Z occurs
nowhere in the team list. -/
def mOrphanZ : Match :=
  ⟨"m5", "cat1", tA, tB, [⟨some 18, some 10⟩, ⟨some 18, some 10⟩, ⟨none, none⟩],
    some tZ, MatchStatus.Finished, ""⟩

/-- A pending match with a recorded first-set score. -/
def mPending : Match :=
  ⟨"m2", "cat1", tA, tB, [⟨some 18, some 10⟩, ⟨none, none⟩, ⟨none, none⟩],
    none, MatchStatus.Pending, ""⟩

/-- A degenerate finished match listing team A on both sides. -/
def mSelf : Match :=
  ⟨"m3", "cat1", tA, tA, [⟨some 18, some 10⟩, ⟨some 18, some 10⟩, ⟨none, none⟩],
    some tA, MatchStatus.Finished, ""⟩

/-- A finished match A beats B two sets to one. -/
def mAB21 : Match :=
  ⟨"m4", "cat1", tA, tB, [⟨some 18, some 10⟩, ⟨some 10, some 18⟩, ⟨some 11, some 5⟩],
    some tA, MatchStatus.Finished, ""⟩

/-! ### Bridging lemmas -/

theorem tallyStep_pts1 (acc : SetTally) (s : MatchSet) :
    (tallyStep acc s).pts1 = acc.pts1 + (if bothPresent s then s.team1.getD 0 else 0) := by
  cases h1 : s.team1 <;> cases h2 : s.team2 <;>
    simp [tallyStep, bothPresent, h1, h2] <;>
    split_ifs <;> simp

theorem tallyStep_pts2 (acc : SetTally) (s : MatchSet) :
    (tallyStep acc s).pts2 = acc.pts2 + (if bothPresent s then s.team2.getD 0 else 0) := by
  cases h1 : s.team1 <;> cases h2 : s.team2 <;>
    simp [tallyStep, bothPresent, h1, h2] <;>
    split_ifs <;> simp

theorem sum_map_ite_filter {α : Type} (l : List α) (g : α → Int) (q : α → Bool) :
    (l.map (fun x => if q x then g x else 0)).sum = ((l.filter q).map g).sum := by
  induction l with
  | nil => rfl
  | cons x t ih =>
    by_cases h : q x
    · simp [h, ih]
    · simp [h, ih]

theorem sum_map_ite_count {α : Type} (l : List α) (q : α → Bool) :
    (l.map (fun x => if q x then 1 else 0)).sum = (l.filter q).length := by
  induction l with
  | nil => rfl
  | cons x t ih =>
    by_cases h : q x
    · simp [h, ih]
      omega
    · simp [h, ih]

theorem tally_foldl_pts1 (sets : List MatchSet) (acc : SetTally) :
    (sets.foldl tallyStep acc).pts1 =
      acc.pts1 + (sets.map (fun s => if bothPresent s then s.team1.getD 0 else 0)).sum := by
  induction sets generalizing acc with
  | nil => simp
  | cons s t ih =>
    rw [List.foldl_cons, ih, tallyStep_pts1]
    simp
    omega

theorem tally_foldl_pts2 (sets : List MatchSet) (acc : SetTally) :
    (sets.foldl tallyStep acc).pts2 =
      acc.pts2 + (sets.map (fun s => if bothPresent s then s.team2.getD 0 else 0)).sum := by
  induction sets generalizing acc with
  | nil => simp
  | cons s t ih =>
    rw [List.foldl_cons, ih, tallyStep_pts2]
    simp
    omega

theorem tallySets_pts1 (m : Match) : (tallySets m.sets).pts1 = specSetSum1 m := by
  rw [tallySets, tally_foldl_pts1, specSetSum1, sum_map_ite_filter]
  simp

theorem tallySets_pts2 (m : Match) : (tallySets m.sets).pts2 = specSetSum2 m := by
  rw [tallySets, tally_foldl_pts2, specSetSum2, sum_map_ite_filter]
  simp

theorem smLookup_some_mem (sm : List (String × Standings)) (k : String) (v : Standings)
    (h : smLookup sm k = some v) : (k, v) ∈ sm := by
  rw [smLookup] at h
  cases hf : sm.find? (fun e => e.1 = k) with
  | none => rw [hf] at h; simp at h
  | some e =>
    rw [hf] at h
    simp at h
    have hmem := List.mem_of_find?_eq_some hf
    have hpred := List.find?_some hf
    simp only [decide_eq_true_eq] at hpred
    have he : e = (k, v) := Prod.ext hpred h
    exact he ▸ hmem

/-- Both listed teams of a relevant match have ids among the map keys. -/
theorem relevant_ids_mem (teams : List Team) (m : Match)
    (h : relevantB teams m = true) :
    m.team1.id ∈ smKeys (initMap teams) ∧ m.team2.id ∈ smKeys (initMap teams) := by
  rw [relevantB, Bool.and_eq_true] at h
  constructor
  · rcases List.any_eq_true.1 h.1 with ⟨t, ht, hid⟩
    simp only [decide_eq_true_eq] at hid
    exact (mem_smKeys_initMap teams _).2 ⟨t, ht, hid⟩
  · rcases List.any_eq_true.1 h.2 with ⟨t, ht, hid⟩
    simp only [decide_eq_true_eq] at hid
    exact (mem_smKeys_initMap teams _).2 ⟨t, ht, hid⟩

/-- Every record of the standings output belongs to a team of the team list,
started from zero and advanced by exactly the summed per-match
contributions over the relevant matches. -/
theorem calculateStandings_record (teams : List Team) (ms : List Match) (r : Standings)
    (hr : r ∈ calculateStandings teams ms) :
    ∃ t ∈ teams, r.team = t ∧
      r.played = ((ms.filter (relevantB teams)).map
        (fun m => playedC (smKeys (initMap teams)) m t.id)).sum ∧
      r.wins = ((ms.filter (relevantB teams)).map
        (fun m => winsC (smKeys (initMap teams)) m t.id)).sum ∧
      r.losses = ((ms.filter (relevantB teams)).map
        (fun m => lossesC (smKeys (initMap teams)) m t.id)).sum ∧
      r.points = ((ms.filter (relevantB teams)).map
        (fun m => pointsC (smKeys (initMap teams)) m t.id)).sum ∧
      r.pointsFor = ((ms.filter (relevantB teams)).map
        (fun m => pfC (smKeys (initMap teams)) m t.id)).sum ∧
      r.pointsAgainst = ((ms.filter (relevantB teams)).map
        (fun m => paC (smKeys (initMap teams)) m t.id)).sum ∧
      r.pointsDifference = r.pointsFor - r.pointsAgainst := by
  rw [mem_calculateStandings] at hr
  rcases List.mem_map.1 hr with ⟨e, he, he2⟩
  have hkeys := smKeys_foldl (ms.filter (relevantB teams)) (initMap teams)
  have hnd : (smKeys ((ms.filter (relevantB teams)).foldl processMatch (initMap teams))).Nodup := by
    rw [hkeys]; exact initMap_keys_nodup teams
  have hlu : smLookup ((ms.filter (relevantB teams)).foldl processMatch (initMap teams)) e.1 =
      some e.2 := smLookup_eq_of_mem _ _ _ hnd (by rw [← Prod.mk.eta (p := e)] at he; exact he)
  have hkmem : e.1 ∈ smKeys (initMap teams) := by
    rw [← hkeys]
    exact List.mem_map.2 ⟨e, he, rfl⟩
  have h0 : ∃ r0, smLookup (initMap teams) e.1 = some r0 := by
    have := (smLookup_isSome_iff (initMap teams) e.1).2 hkmem
    cases hx : smLookup (initMap teams) e.1 with
    | none => rw [hx] at this; simp at this
    | some r0 => exact ⟨r0, rfl⟩
  obtain ⟨r0, hr0⟩ := h0
  have hr0mem := smLookup_some_mem _ _ _ hr0
  obtain ⟨t, ht, hteq⟩ := initMap_entry teams _ hr0mem
  have ht1 : e.1 = t.id := congrArg Prod.fst hteq
  have ht2 : r0 = initStandings t := congrArg Prod.snd hteq
  obtain ⟨r', hr', hteam, hp, hw, hl, hpt, hpf, hpa, hpd⟩ :=
    foldl_lookup (ms.filter (relevantB teams)) (initMap teams) e.1 r0 hr0
  have hre : r' = r := by
    rw [hlu] at hr'
    rw [← he2]
    exact (Option.some.inj hr').symm
  subst hre
  subst he2
  refine ⟨t, ht, ?_, ?_, ?_, ?_, ?_, ?_, ?_, ?_⟩ <;>
    rw [ht2, initStandings] at *
  · rw [hteam]
  · rw [hp, ← ht1]; simp
  · rw [hw, ← ht1]; simp
  · rw [hl, ← ht1]; simp
  · rw [hpt, ← ht1]; simp
  · rw [hpf, ← ht1]; simp
  · rw [hpa, ← ht1]; simp
  · exact hpd rfl

/-! ### Generator lemmas for the claims -/

theorem sum_map_const_nat {α : Type} (l : List α) (g : α → Nat) (c : Nat)
    (h : ∀ x ∈ l, g x = c) : (l.map g).sum = c * l.length := by
  induction l with
  | nil => simp
  | cons x t ih =>
    rw [List.map_cons, List.sum_cons, h x (List.mem_cons_self ..),
      ih (fun y hy => h y (List.mem_cons_of_mem _ hy)), List.length_cons]
    ring

theorem indexPairs_length (n : Nat) : 2 * (indexPairs n).length = n * (n - 1) := by
  rw [indexPairs, pairsAux_length, List.length_range]

theorem flatMap_singleton_eq_map {α β : Type} (l : List α) (f : α → β) :
    (l.flatMap fun x => [f x]) = l.map f := by
  induction l with
  | nil => rfl
  | cons x t ih => simp [ih]

theorem buildMatches_length_false (teams : List Team) (cat : Category) (now : Nat) :
    (buildMatches teams cat false now).length = (indexPairs teams.length).length := by
  rw [buildMatches_eq, List.length_flatMap]
  have := sum_map_const_nat (indexPairs teams.length)
    (List.length ∘ fun p => firstLeg teams cat now p.1 p.2 ::
      (if false then [secondLeg teams cat now p.1 p.2] else [])) 1 (fun p _ => by simp)
  rw [this]
  omega

theorem buildMatches_length_true (teams : List Team) (cat : Category) (now : Nat) :
    (buildMatches teams cat true now).length = 2 * (indexPairs teams.length).length := by
  rw [buildMatches_eq, List.length_flatMap]
  exact sum_map_const_nat _ _ 2 (fun p _ => by simp)

theorem buildMatches_false_eq (teams : List Team) (cat : Category) (now : Nat) :
    buildMatches teams cat false now =
      (indexPairs teams.length).map (fun p => firstLeg teams cat now p.1 p.2) := by
  rw [buildMatches_eq]
  have h : (fun (p : Nat × Nat) => firstLeg teams cat now p.1 p.2 ::
      (if false then [secondLeg teams cat now p.1 p.2] else [])) =
      (fun p => [firstLeg teams cat now p.1 p.2]) := by
    funext p
    simp
  rw [h, flatMap_singleton_eq_map]

theorem buildMatches_true_eq (teams : List Team) (cat : Category) (now : Nat) :
    buildMatches teams cat true now =
      (indexPairs teams.length).flatMap (fun p =>
        [firstLeg teams cat now p.1 p.2, secondLeg teams cat now p.1 p.2]) := by
  rw [buildMatches_eq]
  simp

/-! ### Claim theorems -/

/-- C1: with `twoLegged = false` the generator returns exactly
N(N-1)/2 matches, one first-leg fixture per index pair i &lt; j of the input
teams; with `twoLegged = true` it returns exactly N(N-1) matches, the two
legs per pair carrying swapped team1/team2 assignments; and for N &lt; 2 it
returns the empty sequence (for any clock reading and any shuffle
randomness). -/
theorem c1_round_robin_pairs (teams : List Team) (cat : Category) (now : Nat)
    (coins : List Bool) :
    (generateRoundRobinMatches teams cat false now coins).length =
        teams.length * (teams.length - 1) / 2 ∧
    (generateRoundRobinMatches teams cat true now coins).length =
        teams.length * (teams.length - 1) ∧
    (generateRoundRobinMatches teams cat false now coins).Perm
        ((indexPairs teams.length).map (fun p => firstLeg teams cat now p.1 p.2)) ∧
    (generateRoundRobinMatches teams cat true now coins).Perm
        ((indexPairs teams.length).flatMap (fun p =>
          [firstLeg teams cat now p.1 p.2, secondLeg teams cat now p.1 p.2])) ∧
    (∀ i j : Nat, ((i, j) ∈ indexPairs teams.length ↔ i < j ∧ j < teams.length)) ∧
    (∀ i j : Nat,
      (secondLeg teams cat now i j).team1 = (firstLeg teams cat now i j).team2 ∧
      (secondLeg teams cat now i j).team2 = (firstLeg teams cat now i j).team1) ∧
    (teams.length < 2 →
      generateRoundRobinMatches teams cat false now coins = [] ∧
      generateRoundRobinMatches teams cat true now coins = []) := by
  have hlen2 := indexPairs_length teams.length
  have hpf := jsRandomShuffle_perm coins (buildMatches teams cat false now)
  have hpt := jsRandomShuffle_perm coins (buildMatches teams cat true now)
  refine ⟨?_, ?_, ?_, ?_, ?_, ?_, ?_⟩
  · rw [generateRoundRobinMatches, hpf.length_eq, buildMatches_length_false]
    omega
  · rw [generateRoundRobinMatches, hpt.length_eq, buildMatches_length_true]
    omega
  · rw [generateRoundRobinMatches, ← buildMatches_false_eq]
    exact hpf
  · rw [generateRoundRobinMatches, ← buildMatches_true_eq]
    exact hpt
  · intro i j
    exact mem_indexPairs
  · intro i j
    exact ⟨rfl, rfl⟩
  · intro hn
    have hb : ∀ tl, buildMatches teams cat tl now = [] := by
      intro tl
      rw [buildMatches, if_pos hn]
    constructor <;> (rw [generateRoundRobinMatches, hb]; rfl)

/-- C1 witness: the theorem evaluated at three concrete teams. -/
theorem c1_round_robin_pairs_witness :
    (generateRoundRobinMatches [tA, tB, tC] catX false 0 []).length = 3 * (3 - 1) / 2 ∧
    (generateRoundRobinMatches [tA, tB, tC] catX true 0 []).length = 3 * (3 - 1) ∧
    (generateRoundRobinMatches [tA, tB, tC] catX false 0 []).Perm
        ((indexPairs 3).map (fun p => firstLeg [tA, tB, tC] catX 0 p.1 p.2)) ∧
    (generateRoundRobinMatches [tA, tB, tC] catX true 0 []).Perm
        ((indexPairs 3).flatMap (fun p =>
          [firstLeg [tA, tB, tC] catX 0 p.1 p.2, secondLeg [tA, tB, tC] catX 0 p.1 p.2])) ∧
    (∀ i j : Nat, ((i, j) ∈ indexPairs 3 ↔ i < j ∧ j < 3)) ∧
    (∀ i j : Nat,
      (secondLeg [tA, tB, tC] catX 0 i j).team1 = (firstLeg [tA, tB, tC] catX 0 i j).team2 ∧
      (secondLeg [tA, tB, tC] catX 0 i j).team2 = (firstLeg [tA, tB, tC] catX 0 i j).team1) ∧
    ((3 : Nat) < 2 →
      generateRoundRobinMatches [tA, tB, tC] catX false 0 [] = [] ∧
      generateRoundRobinMatches [tA, tB, tC] catX true 0 [] = []) :=
  c1_round_robin_pairs [tA, tB, tC] catX 0 []

/-- C9: every generated match has exactly the three empty sets, no winner,
Pending status, empty date and the category's id, and the identifiers of the
matches of one returned sequence are pairwise distinct. -/
theorem c9_fixture_initialisation (teams : List Team) (cat : Category) (tl : Bool)
    (now : Nat) (coins : List Bool) :
    (∀ m ∈ generateRoundRobinMatches teams cat tl now coins,
      m.sets = [⟨none, none⟩, ⟨none, none⟩, ⟨none, none⟩] ∧ m.winner = none ∧
        m.status = MatchStatus.Pending ∧ m.date = "" ∧ m.categoryId = cat.id) ∧
    ((generateRoundRobinMatches teams cat tl now coins).map Match.id).Nodup := by
  have hperm := jsRandomShuffle_perm coins (buildMatches teams cat tl now)
  constructor
  · intro m hm
    have hmb : m ∈ buildMatches teams cat tl now := hperm.mem_iff.1 hm
    rw [buildMatches_eq] at hmb
    rcases List.mem_flatMap.1 hmb with ⟨p, hp, hmp⟩
    rcases List.mem_cons.1 hmp with rfl | hmp
    · exact ⟨rfl, rfl, rfl, rfl, rfl⟩
    · cases tl
      · simp at hmp
      · simp at hmp
        rw [hmp]
        exact ⟨rfl, rfl, rfl, rfl, rfl⟩
  · have : ((generateRoundRobinMatches teams cat tl now coins).map Match.id).Perm
        ((buildMatches teams cat tl now).map Match.id) := hperm.map Match.id
    exact this.nodup_iff.2 (build_ids_nodup teams cat tl now)

/-- C8 counterexample: two calls of the generator on identical team, category
and flag inputs but different clock readings return different match lists
(the identifiers embed the clock), so the function is not deterministic in
its team/category/flag inputs alone. -/
theorem c8_counterexample :
    generateRoundRobinMatches [tA, tB] catX false 0 [] ≠
      generateRoundRobinMatches [tA, tB] catX false 1 [] := by decide

/-- C8 amended: `calculateStandings` takes no environment in this embedding
(it is deterministic by construction); `generateRoundRobinMatches` is
deterministic only up to identifiers and order: across any two clock
readings and shuffle randomness streams, the returned sequences carry the
same multiset of matches once identifiers are erased. -/
theorem c8_amended_determinism_up_to_ids (teams : List Team) (cat : Category) (tl : Bool)
    (now1 : Nat) (coins1 : List Bool) (now2 : Nat) (coins2 : List Bool) :
    ((generateRoundRobinMatches teams cat tl now1 coins1).map matchContent).Perm
      ((generateRoundRobinMatches teams cat tl now2 coins2).map matchContent) := by
  have h1 := (jsRandomShuffle_perm coins1 (buildMatches teams cat tl now1)).map matchContent
  have h2 := (jsRandomShuffle_perm coins2 (buildMatches teams cat tl now2)).map matchContent
  have heq : (buildMatches teams cat tl now1).map matchContent =
      (buildMatches teams cat tl now2).map matchContent := by
    rw [buildMatches_eq, buildMatches_eq, List.map_flatMap, List.map_flatMap]
    congr 1
    funext p
    cases tl <;> simp [firstLeg, secondLeg, matchContent]
  exact h1.trans (heq ▸ h2.symm)

/-- C2: the standings list is sorted by descending points, ties broken by
descending wins, then descending point difference, then descending
points-for. -/
theorem c2_standings_sort_order (teams : List Team) (ms : List Match) :
    (calculateStandings teams ms).Pairwise specStandingsOrder :=
  calculateStandings_sorted teams ms

/-- C3 counterexample: a counted degenerate match listing team A on both
sides, decided 2-0, leaves the loser-id record with 3 points instead of 0:
the winner and loser references alias the same record, so the winner's award
lands on it.  The conjuncts exhibit that the match is counted (Finished,
winner recorded, both lookups succeed), that the tally is 2 sets to 0, that
the loser-id record started at 0 points, and that it ends at 3. -/
theorem c3_counterexample :
    mSelf.status = MatchStatus.Finished ∧ mSelf.winner = some tA ∧
    smLookup (initMap [tA]) tA.id = some (initStandings tA) ∧
    smLookup (initMap [tA]) (loserIdOf mSelf tA) = some (initStandings tA) ∧
    (initStandings tA).points = 0 ∧
    max (tallySets mSelf.sets).sw1 (tallySets mSelf.sets).sw2 = 2 ∧
    min (tallySets mSelf.sets).sw1 (tallySets mSelf.sets).sw2 = 0 ∧
    (smLookup (processMatch (initMap [tA]) mSelf) (loserIdOf mSelf tA)).map
        (fun r => r.points) = some 3 := by
  decide

/-- C3 amended: for a counted match whose winner's id differs from the loser
id (in particular whenever the two listed teams have distinct ids), a 2-0
set tally awards the winner exactly 3 points and the loser 0; a 2-1 tally
awards 2 and 1; any other tally awards nothing, while the winner still gains
a win and the loser a loss.  For a degenerate counted match listing the same
team id on both sides the single aliased record receives both roles' awards
instead. -/
theorem c3_points_by_set_margin (sm : List (String × Standings)) (m : Match) (w : Team)
    (rWin rLos : Standings)
    (hst : m.status = MatchStatus.Finished) (hw : m.winner = some w)
    (hlw : smLookup sm w.id = some rWin)
    (hll : smLookup sm (loserIdOf m w) = some rLos)
    (hne : w.id ≠ loserIdOf m w) :
    ∃ rWin' rLos',
      smLookup (processMatch sm m) w.id = some rWin' ∧
      smLookup (processMatch sm m) (loserIdOf m w) = some rLos' ∧
      rWin'.wins = rWin.wins + 1 ∧ rLos'.losses = rLos.losses + 1 ∧
      (max (tallySets m.sets).sw1 (tallySets m.sets).sw2 = 2 ∧
          min (tallySets m.sets).sw1 (tallySets m.sets).sw2 = 0 →
        rWin'.points = rWin.points + 3 ∧ rLos'.points = rLos.points) ∧
      (max (tallySets m.sets).sw1 (tallySets m.sets).sw2 = 2 ∧
          min (tallySets m.sets).sw1 (tallySets m.sets).sw2 = 1 →
        rWin'.points = rWin.points + 2 ∧ rLos'.points = rLos.points + 1) ∧
      (¬(max (tallySets m.sets).sw1 (tallySets m.sets).sw2 = 2 ∧
          (min (tallySets m.sets).sw1 (tallySets m.sets).sw2 = 0 ∨
           min (tallySets m.sets).sw1 (tallySets m.sets).sw2 = 1)) →
        rWin'.points = rWin.points ∧ rLos'.points = rLos.points) := by
  have hst' : ¬ m.status ≠ MatchStatus.Finished := by simp [hst]
  have hl : (smLookup sm w.id).isSome ∧ (smLookup sm (loserIdOf m w)).isSome := by
    rw [hlw, hll]; exact ⟨rfl, rfl⟩
  have hmem : w.id ∈ smKeys sm ∧ loserIdOf m w ∈ smKeys sm :=
    ⟨(smLookup_isSome_iff sm w.id).1 hl.1, (smLookup_isSome_iff sm _).1 hl.2⟩
  have hc : chargeOf (smKeys sm) m =
      some { winnerId := w.id, loserId := loserIdOf m w,
             wPts := winnerPts (tallySets m.sets), lPts := loserPts (tallySets m.sets),
             wPf := winnerPf m w (tallySets m.sets),
             wPa := winnerPa m w (tallySets m.sets) } := by
    rw [chargeOf, if_neg hst', hw]
    exact if_pos hmem
  obtain ⟨rWin', hrw', -, -, hwins, -, hpoints, -, -, -⟩ :=
    processMatch_lookup sm m w.id rWin hlw
  obtain ⟨rLos', hrl', -, -, -, hlosses, hpointsl, -, -, -⟩ :=
    processMatch_lookup sm m (loserIdOf m w) rLos hll
  have hA : rWin'.points = rWin.points + winnerPts (tallySets m.sets) := by
    rw [hpoints]
    have : pointsC (smKeys sm) m w.id = winnerPts (tallySets m.sets) := by
      simp [pointsC, hc, hne]
    rw [this]
  have hB : rLos'.points = rLos.points + loserPts (tallySets m.sets) := by
    rw [hpointsl]
    have : pointsC (smKeys sm) m (loserIdOf m w) = loserPts (tallySets m.sets) := by
      have hne' : loserIdOf m w ≠ w.id := fun hx => hne hx.symm
      simp [pointsC, hc, hne']
    rw [this]
  have hW : rWin'.wins = rWin.wins + 1 := by
    rw [hwins]
    have : winsC (smKeys sm) m w.id = 1 := by simp [winsC, hc]
    rw [this]
  have hL : rLos'.losses = rLos.losses + 1 := by
    rw [hlosses]
    have : lossesC (smKeys sm) m (loserIdOf m w) = 1 := by simp [lossesC, hc]
    rw [this]
  refine ⟨rWin', rLos', hrw', hrl', hW, hL, ?_, ?_, ?_⟩
  · intro h
    refine ⟨?_, ?_⟩
    · rw [hA, winnerPts]
      split_ifs <;> omega
    · rw [hB, loserPts]
      split_ifs <;> omega
  · intro h
    refine ⟨?_, ?_⟩
    · rw [hA, winnerPts]
      split_ifs <;> omega
    · rw [hB, loserPts]
      split_ifs <;> omega
  · intro h
    refine ⟨?_, ?_⟩
    · rw [hA, winnerPts]
      split_ifs <;> omega
    · rw [hB, loserPts]
      split_ifs <;> omega

/-- C3 witness: the theorem evaluated at a concrete map and a concrete 2-1
match. -/
theorem c3_points_by_set_margin_witness :
    ∃ rWin' rLos',
      smLookup (processMatch (initMap [tA, tB]) mAB21) tA.id = some rWin' ∧
      smLookup (processMatch (initMap [tA, tB]) mAB21) (loserIdOf mAB21 tA) = some rLos' ∧
      rWin'.wins = (initStandings tA).wins + 1 ∧
      rLos'.losses = (initStandings tB).losses + 1 ∧
      (max (tallySets mAB21.sets).sw1 (tallySets mAB21.sets).sw2 = 2 ∧
          min (tallySets mAB21.sets).sw1 (tallySets mAB21.sets).sw2 = 0 →
        rWin'.points = (initStandings tA).points + 3 ∧
          rLos'.points = (initStandings tB).points) ∧
      (max (tallySets mAB21.sets).sw1 (tallySets mAB21.sets).sw2 = 2 ∧
          min (tallySets mAB21.sets).sw1 (tallySets mAB21.sets).sw2 = 1 →
        rWin'.points = (initStandings tA).points + 2 ∧
          rLos'.points = (initStandings tB).points + 1) ∧
      (¬(max (tallySets mAB21.sets).sw1 (tallySets mAB21.sets).sw2 = 2 ∧
          (min (tallySets mAB21.sets).sw1 (tallySets mAB21.sets).sw2 = 0 ∨
           min (tallySets mAB21.sets).sw1 (tallySets mAB21.sets).sw2 = 1)) →
        rWin'.points = (initStandings tA).points ∧
          rLos'.points = (initStandings tB).points) :=
  c3_points_by_set_margin (initMap [tA, tB]) mAB21 tA (initStandings tA)
    (initStandings tB) (by decide) (by decide) (by decide) (by decide) (by decide)

/-- C5: a match failing any of the counting conditions (both team ids in the
team list, Finished status, non-null winner) contributes nothing: removing
it from the match list leaves the standings unchanged. -/
theorem c5_only_counted_matches (teams : List Team) (ms1 ms2 : List Match) (m : Match)
    (h : relevantB teams m ≠ true ∨ m.status ≠ MatchStatus.Finished ∨ m.winner = none) :
    calculateStandings teams (ms1 ++ m :: ms2) = calculateStandings teams (ms1 ++ ms2) := by
  apply calculateStandings_skip
  intro hrel sm _
  rcases h with h | h | h
  · exact absurd hrel h
  · exact processMatch_noop_of_unfinished sm m (Or.inl h)
  · exact processMatch_noop_of_unfinished sm m (Or.inr h)

/-- C5 witness: a Pending match with a recorded set score contributes
nothing. -/
theorem c5_only_counted_matches_witness :
    calculateStandings [tA, tB] ([] ++ mPending :: []) = calculateStandings [tA, tB] ([] ++ []) :=
  c5_only_counted_matches [tA, tB] [] [] mPending (Or.inr (Or.inr (by decide)))

/-- C6 counterexample: a Finished match between A and B whose recorded winner
is the third listed team C is not skipped; it changes the standings (C is
charged as winner, A as loser). -/
theorem c6_counterexample :
    calculateStandings [tA, tB, tC] [mOrphan] ≠ calculateStandings [tA, tB, tC] [] := by
  decide

/-- C6 amended: a Finished match whose winner's team id matches neither
listed team nor the id of any team in the team list is silently skipped:
removing it leaves the standings unchanged and no error occurs.  A winner id
matching some third team in the list is instead charged as the winner. -/
theorem c6_amended_orphan_winner_skipped (teams : List Team) (ms1 ms2 : List Match)
    (m : Match) (w : Team) (hw : m.winner = some w)
    (h : ∀ t ∈ teams, t.id ≠ w.id) :
    calculateStandings teams (ms1 ++ m :: ms2) = calculateStandings teams (ms1 ++ ms2) := by
  apply calculateStandings_skip
  intro hrel sm hkeys
  apply processMatch_noop_of_absent_winner sm m w hw
  have hnot : w.id ∉ smKeys sm := by
    rw [hkeys, mem_smKeys_initMap]
    rintro ⟨t, ht, hid⟩
    exact h t ht hid
  cases hlu : smLookup sm w.id with
  | none => rfl
  | some v =>
    exact absurd ((smLookup_isSome_iff sm w.id).1 (by rw [hlu]; rfl)) hnot

/-- C6 amended witness: a match whose winner id Z occurs nowhere in the team
list is skipped. -/
theorem c6_amended_orphan_winner_skipped_witness :
    calculateStandings [tA, tB, tC] ([] ++ mOrphanZ :: []) =
      calculateStandings [tA, tB, tC] ([] ++ []) :=
  c6_amended_orphan_winner_skipped [tA, tB, tC] [] [] mOrphanZ tZ (by decide) (by decide)

/-- The updated match always satisfies the spec's match invariant. -/
theorem updateMatchResult_matchInvariant (m : Match) (ns : Option (List MatchSet))
    (nd : Option String) : matchInvariant (updateMatchResult m ns nd) := by
  constructor
  · cases hnw : newWinner (mergedMatch m ns nd)
    · simp [updateMatchResult, hnw]
    · simp [updateMatchResult, hnw]
  · intro t ht
    have ht' : newWinner (mergedMatch m ns nd) = some t := ht
    rw [newWinner] at ht'
    have hsets : (updateMatchResult m ns nd).sets = (mergedMatch m ns nd).sets := rfl
    by_cases h1 : (setWinsPair (mergedMatch m ns nd).sets).1 ≥ 2
    · rw [if_pos h1] at ht'
      left
      exact ⟨(Option.some.inj ht').symm, by rw [hsets]; exact h1⟩
    · rw [if_neg h1] at ht'
      by_cases h2 : (setWinsPair (mergedMatch m ns nd).sets).2 ≥ 2
      · rw [if_pos h2] at ht'
        right
        exact ⟨(Option.some.inj ht').symm, by rw [hsets]; exact h2⟩
      · rw [if_neg h2] at ht'
        cases ht'

/-- C7: if every match of the list satisfies the invariant (status is
Finished iff a winner is recorded, and the winner is the listed team with at
least two set wins over the sets with both scores present), then after the
update every match still satisfies it — the updated match unconditionally —
and every match whose id differs from the updated one is returned unchanged
at its position. -/
theorem c7_update_match_invariant (ms : List Match) (mid : String)
    (ns : Option (List MatchSet)) (nd : Option String)
    (h : ∀ m ∈ ms, matchInvariant m) :
    (∀ m ∈ handleUpdateMatch ms mid ns nd, matchInvariant m) ∧
    (∀ (i : Nat) (m : Match), ms[i]? = some m → m.id ≠ mid →
      (handleUpdateMatch ms mid ns nd)[i]? = some m) := by
  constructor
  · intro m' hm'
    rw [handleUpdateMatch] at hm'
    rcases List.mem_map.1 hm' with ⟨m, hm, heq⟩
    by_cases hid : m.id = mid
    · rw [if_pos hid] at heq
      rw [← heq]
      exact updateMatchResult_matchInvariant m ns nd
    · rw [if_neg hid] at heq
      rw [← heq]
      exact h m hm
  · intro i m hi hne
    rw [handleUpdateMatch, List.getElem?_map, hi]
    simp [hne]

/-- C7 witness: updating the pending match's sets to a finished 2-0 result
restores the invariant on the concrete list. -/
theorem c7_update_match_invariant_witness :
    (∀ m ∈ handleUpdateMatch [mPending] "m2"
        (some [⟨some 18, some 11⟩, ⟨some 18, some 12⟩, ⟨none, none⟩]) none,
      matchInvariant m) ∧
    (∀ (i : Nat) (m : Match), [mPending][i]? = some m → m.id ≠ "m2" →
      (handleUpdateMatch [mPending] "m2"
        (some [⟨some 18, some 11⟩, ⟨some 18, some 12⟩, ⟨none, none⟩]) none)[i]? = some m) :=
  c7_update_match_invariant [mPending] "m2"
    (some [⟨some 18, some 11⟩, ⟨some 18, some 12⟩, ⟨none, none⟩]) none
    (by
      intro m hm
      rw [List.mem_singleton] at hm
      subst hm
      refine ⟨by decide, ?_⟩
      intro t ht
      rw [show mPending.winner = none from rfl] at ht
      cases ht)

/-! ### Pointwise contribution lemmas for C4 and C10 -/

theorem sum_map_add_nat {α : Type} (l : List α) (f g : α → Nat) :
    (l.map f).sum + (l.map g).sum = (l.map (fun x => f x + g x)).sum := by
  induction l with
  | nil => rfl
  | cons x t ih => simp [← ih]; omega

theorem winsC_add_lossesC (K : List String) (m : Match) (tid : String) :
    winsC K m tid + lossesC K m tid = playedC K m tid := by
  rw [winsC, lossesC, playedC]
  cases chargeOf K m <;> rfl

theorem chargeOf_some_elim (K : List String) (m : Match) (c : Charge)
    (hc : chargeOf K m = some c) :
    ∃ w, m.winner = some w ∧ m.status = MatchStatus.Finished ∧
      c = { winnerId := w.id, loserId := loserIdOf m w,
            wPts := winnerPts (tallySets m.sets), lPts := loserPts (tallySets m.sets),
            wPf := winnerPf m w (tallySets m.sets),
            wPa := winnerPa m w (tallySets m.sets) } ∧
      w.id ∈ K ∧ loserIdOf m w ∈ K := by
  by_cases hst : m.status ≠ MatchStatus.Finished
  · rw [chargeOf_eq_none_unfinished K m (Or.inl hst)] at hc
    cases hc
  · cases hw : m.winner with
    | none =>
      rw [chargeOf_eq_none_unfinished K m (Or.inr hw)] at hc
      cases hc
    | some w =>
      simp only [chargeOf, if_neg hst, hw] at hc
      by_cases hmem : w.id ∈ K ∧ loserIdOf m w ∈ K
      · rw [if_pos hmem] at hc
        exact ⟨w, rfl, not_not.mp hst, (Option.some.inj hc).symm, hmem.1, hmem.2⟩
      · rw [if_neg hmem] at hc
        cases hc

theorem chargeOf_winner_ne_loser (K : List String) (m : Match) (c : Charge)
    (hc : chargeOf K m = some c) (hids : m.team1.id ≠ m.team2.id) :
    c.winnerId ≠ c.loserId := by
  obtain ⟨w, -, -, hceq, -, -⟩ := chargeOf_some_elim K m c hc
  rw [hceq]
  show w.id ≠ loserIdOf m w
  rw [loserIdOf]
  by_cases hx : w.id = m.team1.id
  · rw [if_pos hx, hx]
    exact hids
  · rw [if_neg hx]
    exact hx

theorem playedC_eq_charged (teams : List Team) (m : Match) (tid : String)
    (hrel : relevantB teams m = true) (hids : m.team1.id ≠ m.team2.id) :
    playedC (smKeys (initMap teams)) m tid = if chargedTo teams m tid then 1 else 0 := by
  rw [playedC, chargedTo, hrel]
  cases hc : chargeOf (smKeys (initMap teams)) m with
  | none => simp
  | some c =>
    have hne := chargeOf_winner_ne_loser _ m c hc hids
    simp only [Bool.true_and]
    by_cases h1 : tid = c.winnerId <;> by_cases h2 : tid = c.loserId
    · exact absurd (h1 ▸ h2) hne
    · simp [h1, h2, hne]
    · simp [h1, h2, Ne.symm hne]
    · simp [h1, h2]

theorem pfC_paC_spec (teams : List Team) (m : Match) (tid : String)
    (hrel : relevantB teams m = true) (hids : m.team1.id ≠ m.team2.id)
    (hwin : ∀ w, m.winner = some w → w.id = m.team1.id ∨ w.id = m.team2.id) :
    pfC (smKeys (initMap teams)) m tid =
      (if decide (m.status = MatchStatus.Finished) && m.winner.isSome then
        specPointsForContrib m tid else 0) ∧
    paC (smKeys (initMap teams)) m tid =
      (if decide (m.status = MatchStatus.Finished) && m.winner.isSome then
        specPointsAgainstContrib m tid else 0) := by
  by_cases hst : m.status = MatchStatus.Finished
  case neg =>
    have hc := chargeOf_eq_none_unfinished (smKeys (initMap teams)) m (Or.inl hst)
    constructor <;> simp [pfC, paC, hc, hst]
  case pos =>
    cases hw : m.winner with
    | none =>
      have hc := chargeOf_eq_none_unfinished (smKeys (initMap teams)) m (Or.inr hw)
      constructor <;> simp [pfC, paC, hc, hw]
    | some w =>
      have hids12 := relevant_ids_mem teams m hrel
      have hst' : ¬ m.status ≠ MatchStatus.Finished := by simp [hst]
      rcases hwin w hw with hwid | hwid
      · have hlid : loserIdOf m w = m.team2.id := by rw [loserIdOf, if_pos hwid]
        have hmem : w.id ∈ smKeys (initMap teams) ∧
            loserIdOf m w ∈ smKeys (initMap teams) := by
          rw [hwid, hlid]
          exact hids12
        have hc : chargeOf (smKeys (initMap teams)) m =
            some { winnerId := w.id, loserId := loserIdOf m w,
                   wPts := winnerPts (tallySets m.sets), lPts := loserPts (tallySets m.sets),
                   wPf := winnerPf m w (tallySets m.sets),
                   wPa := winnerPa m w (tallySets m.sets) } := by
          rw [chargeOf, if_neg hst', hw]
          exact if_pos hmem
        have hWpf : winnerPf m w (tallySets m.sets) = specSetSum1 m := by
          rw [winnerPf, if_pos hwid.symm, tallySets_pts1]
        have hWpa : winnerPa m w (tallySets m.sets) = specSetSum2 m := by
          rw [winnerPa, if_pos hwid.symm, tallySets_pts2]
        by_cases h1 : tid = m.team1.id <;> by_cases h2 : tid = m.team2.id
        · exact absurd (h1 ▸ h2) hids
        · constructor <;>
            simp [pfC, paC, hc, hwid, hlid, h1, h2, hWpf, hWpa, hids, Ne.symm hids,
              specPointsForContrib, specPointsAgainstContrib, hst, hw]
        · constructor <;>
            simp [pfC, paC, hc, hwid, hlid, h1, h2, hWpf, hWpa, hids, Ne.symm hids,
              specPointsForContrib, specPointsAgainstContrib, hst, hw]
        · constructor <;>
            simp [pfC, paC, hc, hwid, hlid, h1, h2, hWpf, hWpa, hids, Ne.symm hids,
              specPointsForContrib, specPointsAgainstContrib, hst, hw]
      · have hne1 : w.id ≠ m.team1.id := by
          rw [hwid]
          exact fun hcon => hids hcon.symm
        have hlid : loserIdOf m w = m.team1.id := by rw [loserIdOf, if_neg hne1]
        have hmem : w.id ∈ smKeys (initMap teams) ∧
            loserIdOf m w ∈ smKeys (initMap teams) := by
          rw [hwid, hlid]
          exact ⟨hids12.2, hids12.1⟩
        have hc : chargeOf (smKeys (initMap teams)) m =
            some { winnerId := w.id, loserId := loserIdOf m w,
                   wPts := winnerPts (tallySets m.sets), lPts := loserPts (tallySets m.sets),
                   wPf := winnerPf m w (tallySets m.sets),
                   wPa := winnerPa m w (tallySets m.sets) } := by
          rw [chargeOf, if_neg hst', hw]
          exact if_pos hmem
        have hWpf : winnerPf m w (tallySets m.sets) = specSetSum2 m := by
          rw [winnerPf, if_neg (fun hcon => hne1 hcon.symm), tallySets_pts2]
        have hWpa : winnerPa m w (tallySets m.sets) = specSetSum1 m := by
          rw [winnerPa, if_neg (fun hcon => hne1 hcon.symm), tallySets_pts1]
        by_cases h1 : tid = m.team1.id <;> by_cases h2 : tid = m.team2.id
        · exact absurd (h1 ▸ h2) hids
        · constructor <;>
            simp [pfC, paC, hc, hwid, hlid, h1, h2, hWpf, hWpa, hids, Ne.symm hids,
              specPointsForContrib, specPointsAgainstContrib, hst, hw]
        · constructor <;>
            simp [pfC, paC, hc, hwid, hlid, h1, h2, hWpf, hWpa, hids, Ne.symm hids,
              specPointsForContrib, specPointsAgainstContrib, hst, hw]
        · constructor <;>
            simp [pfC, paC, hc, hwid, hlid, h1, h2, hWpf, hWpa, hids, Ne.symm hids,
              specPointsForContrib, specPointsAgainstContrib, hst, hw]

/-- The standings record of A after A beats B two sets to one. -/
def recA : Standings := ⟨tA, 1, 1, 0, 2, 39, 33, 6⟩

/-- C10 counterexample: with a degenerate finished match listing team A on
both sides, A's `played` is 2 while A is charged in only one counted match,
so `played` does not equal the number of counted matches charging the
team. -/
theorem c10_counterexample :
    ¬ (∀ r ∈ calculateStandings [tA] [mSelf],
        r.played = ([mSelf].filter (fun m => chargedTo [tA] m r.team.id)).length) := by
  decide

/-- C10 amended: provided every match lists two distinct team ids, each
output record satisfies wins + losses = played, and played equals the number
of matches that are counted and charge the record's team as winner or
loser. -/
theorem c10_amended_played_counts (teams : List Team) (ms : List Match) (r : Standings)
    (hids : ∀ m ∈ ms, m.team1.id ≠ m.team2.id)
    (hr : r ∈ calculateStandings teams ms) :
    r.wins + r.losses = r.played ∧
    r.played = (ms.filter (fun m => chargedTo teams m r.team.id)).length := by
  obtain ⟨t, ht, hteam, hp, hw, hl, -, -, -, -⟩ := calculateStandings_record teams ms r hr
  have htid : r.team.id = t.id := by rw [hteam]
  constructor
  · rw [hp, hw, hl, sum_map_add_nat]
    exact congrArg List.sum (List.map_congr_left
      (fun m _ => winsC_add_lossesC (smKeys (initMap teams)) m t.id))
  · rw [hp, htid]
    have hcongr : ∀ m ∈ ms.filter (relevantB teams),
        playedC (smKeys (initMap teams)) m t.id =
          if chargedTo teams m t.id then 1 else 0 := by
      intro m hm
      exact playedC_eq_charged teams m t.id (List.mem_filter.1 hm).2
        (hids m (List.mem_filter.1 hm).1)
    rw [List.map_congr_left hcongr, sum_map_ite_count, List.filter_filter]
    apply congrArg List.length
    apply List.filter_congr
    intro m _
    cases hrel : relevantB teams m <;> simp [chargedTo, hrel]

/-- C10 amended witness: the theorem evaluated at A's record after a
concrete 2-1 match. -/
theorem c10_amended_played_counts_witness :
    recA.wins + recA.losses = recA.played ∧
    recA.played = ([mAB21].filter (fun m => chargedTo [tA, tB] m recA.team.id)).length :=
  c10_amended_played_counts [tA, tB] [mAB21] recA (by decide) (by decide)

/-- C4 counterexample: with a counted match between A and B whose recorded
winner is the third listed team C, team B's `pointsFor` does not equal the
spec-side sum of B's set scores over counted matches (the code credits B
nothing while the spec sum is 20). -/
theorem c4_counterexample :
    ¬ (∀ r ∈ calculateStandings [tA, tB, tC] [mOrphan],
        r.pointsFor = (([mOrphan].filter (countedB [tA, tB, tC])).map
          (fun m => specPointsForContrib m r.team.id)).sum) := by
  decide

/-- C4 amended: provided every match lists two distinct team ids and every
recorded winner is one of its two listed teams, each output record's
pointsFor equals the sum of the team's set scores over counted matches and
present sets, pointsAgainst the corresponding opposing sum, and
pointsDifference equals pointsFor minus pointsAgainst. -/
theorem c4_amended_points_sums (teams : List Team) (ms : List Match) (r : Standings)
    (hids : ∀ m ∈ ms, m.team1.id ≠ m.team2.id)
    (hwin : ∀ m ∈ ms, ∀ w, m.winner = some w → w.id = m.team1.id ∨ w.id = m.team2.id)
    (hr : r ∈ calculateStandings teams ms) :
    r.pointsFor = ((ms.filter (countedB teams)).map
        (fun m => specPointsForContrib m r.team.id)).sum ∧
    r.pointsAgainst = ((ms.filter (countedB teams)).map
        (fun m => specPointsAgainstContrib m r.team.id)).sum ∧
    r.pointsDifference = r.pointsFor - r.pointsAgainst := by
  obtain ⟨t, ht, hteam, -, -, -, -, hpf, hpa, hpd⟩ := calculateStandings_record teams ms r hr
  have htid : r.team.id = t.id := by rw [hteam]
  have hfilter : (ms.filter (relevantB teams)).filter
      (fun m => decide (m.status = MatchStatus.Finished) && m.winner.isSome) =
      ms.filter (countedB teams) := by
    rw [List.filter_filter]
    apply List.filter_congr
    intro m _
    rw [countedB]
    cases relevantB teams m <;>
      cases m.winner.isSome <;>
      by_cases hst : m.status = MatchStatus.Finished <;> simp [hst]
  refine ⟨?_, ?_, hpd⟩
  · rw [hpf, htid]
    have hcongr : ∀ m ∈ ms.filter (relevantB teams),
        pfC (smKeys (initMap teams)) m t.id =
          if decide (m.status = MatchStatus.Finished) && m.winner.isSome then
            specPointsForContrib m t.id else 0 := by
      intro m hm
      exact (pfC_paC_spec teams m t.id (List.mem_filter.1 hm).2
        (hids m (List.mem_filter.1 hm).1) (hwin m (List.mem_filter.1 hm).1)).1
    rw [List.map_congr_left hcongr, sum_map_ite_filter, hfilter]
  · rw [hpa, htid]
    have hcongr : ∀ m ∈ ms.filter (relevantB teams),
        paC (smKeys (initMap teams)) m t.id =
          if decide (m.status = MatchStatus.Finished) && m.winner.isSome then
            specPointsAgainstContrib m t.id else 0 := by
      intro m hm
      exact (pfC_paC_spec teams m t.id (List.mem_filter.1 hm).2
        (hids m (List.mem_filter.1 hm).1) (hwin m (List.mem_filter.1 hm).1)).2
    rw [List.map_congr_left hcongr, sum_map_ite_filter, hfilter]

/-- C4 amended witness: the theorem evaluated at A's record after a concrete
2-1 match. -/
theorem c4_amended_points_sums_witness :
    recA.pointsFor = (([mAB21].filter (countedB [tA, tB])).map
        (fun m => specPointsForContrib m recA.team.id)).sum ∧
    recA.pointsAgainst = (([mAB21].filter (countedB [tA, tB])).map
        (fun m => specPointsAgainstContrib m recA.team.id)).sum ∧
    recA.pointsDifference = recA.pointsFor - recA.pointsAgainst :=
  c4_amended_points_sums [tA, tB] [mAB21] recA (by decide) (by decide) (by decide)

end Apfq
